import Mathlib

/-!
Shallow embedding of the DQN reinforcer of
`src/vel/rl/reinforcers/old/dqn_reinforcer.py`: the settings record, the
target-value computation, the smooth-L1 replay loss, the rollout loop of
`train_batch`, the epoch loop of `train_epoch` and the `create` wiring
function, together with models of the external torch primitives the file
calls (`argmax`, `max`, `gather`, `smooth_l1_loss`, `clip_grad_norm_`) at
their documented semantics.  Python ints are modelled as `ℤ`, floats as
`ℚ`, tensors as lists of rationals, and the stateful collaborators
(env roller, optimizer, autodiff) as explicit functions over abstract
state types.  Calls made by `train_batch` and `train_epoch` are recorded
in an event trace so that sequencing claims can be stated.
-/

namespace Dqn

/-- Settings class for deep Q-Learning (`DqnReinforcerSettings`,
dqn_reinforcer.py lines 20-32), with fields in source order. -/
structure DqnReinforcerSettings where
  epsilonSchedule : ℚ → ℚ
  trainFrequency : ℤ
  batchSize : ℤ
  doubleDqn : Bool
  targetUpdateFrequency : ℤ
  discountFactor : ℚ
  maxGradNorm : Option ℚ

/-- A Q-network forward pass: one row of per-action values for each
observation.  The action space of a discrete gym environment is nonempty,
so the action count is `n + 1`. -/
def QNet (Obs : Type) (n : ℕ) : Type := Obs → Fin (n + 1) → ℚ

/-- One sampled transition: a row across the aligned arrays `states`,
`states+1`, `actions`, `rewards`, `dones`, `weights` of the dict returned
by `env_roller.sample` (lines 136-142). -/
structure Transition (Obs : Type) (n : ℕ) where
  state : Obs
  stateNext : Obs
  action : Fin (n + 1)
  reward : ℚ
  done : Bool
  weight : ℚ
  deriving DecidableEq

/-- Model of `tensor.argmax(dim=1)` on one row: fold keeping the earliest
index attaining the running maximum. -/
def argmaxQ {n : ℕ} (f : Fin (n + 1) → ℚ) : Fin (n + 1) :=
  (List.finRange (n + 1)).foldl (fun b i => if f b < f i then i else b) ⟨0, Nat.succ_pos n⟩

/-- Model of `tensor.max(dim=1)[0]` on one row: fold with `max`. -/
def maxQ {n : ℕ} (f : Fin (n + 1) → ℚ) : ℚ :=
  (List.finRange (n + 1)).foldl (fun b i => max b (f i)) (f ⟨0, Nat.succ_pos n⟩)

/-- Per-sample form of the bootstrap value `values` of lines 144-153: in
double-DQN mode the target net evaluated at the train net's argmax action,
otherwise the max of the target net's row. -/
def bootstrapValue {Obs : Type} {n : ℕ} (cfg : DqnReinforcerSettings)
    (targetNet trainNet : QNet Obs n) (s : Obs) : ℚ :=
  if cfg.doubleDqn then targetNet s (argmaxQ (trainNet s)) else maxQ (targetNet s)

/-- Batched bootstrap values (`values`, lines 144-153): in double-DQN mode
`target_values.gather(1, model_values.argmax(dim=1, keepdim=True)).squeeze(1)`,
otherwise `self.target_model(observation_tensor_tplus1).max(dim=1)[0]`. -/
def bootstrapValues {Obs : Type} {n : ℕ} (cfg : DqnReinforcerSettings)
    (targetNet trainNet : QNet Obs n) (nextStates : List Obs) : List ℚ :=
  if cfg.doubleDqn then
    nextStates.map (fun s => targetNet s (argmaxQ (trainNet s)))
  else
    nextStates.map (fun s => maxQ (targetNet s))

/-- Model of `dones_tensor.astype(np.float32)` entries: 1 for a terminal
transition, 0 otherwise. -/
def doneFloat (d : Bool) : ℚ := if d then 1 else 0

/-- The `rewards` column of the sample. -/
def rewardsOf {Obs : Type} {n : ℕ} (batch : List (Transition Obs n)) : List ℚ :=
  batch.map (fun t => t.reward)

/-- The `dones` column of the sample, as floats. -/
def donesOf {Obs : Type} {n : ℕ} (batch : List (Transition Obs n)) : List ℚ :=
  batch.map (fun t => doneFloat t.done)

/-- The `states+1` column of the sample. -/
def nextStatesOf {Obs : Type} {n : ℕ} (batch : List (Transition Obs n)) : List Obs :=
  batch.map (fun t => t.stateNext)

/-- The `weights` column of the sample. -/
def weightsOf {Obs : Type} {n : ℕ} (batch : List (Transition Obs n)) : List ℚ :=
  batch.map (fun t => t.weight)

/-- Line 155: `expected_q = rewards_tensor + discount_factor * values * (1 - dones)`,
elementwise over the batch. -/
def expectedQList {Obs : Type} {n : ℕ} (cfg : DqnReinforcerSettings)
    (targetNet trainNet : QNet Obs n) (batch : List (Transition Obs n)) : List ℚ :=
  List.zipWith (fun r v => r + v) (rewardsOf batch)
    (List.zipWith (fun v d => cfg.discountFactor * v * (1 - d))
      (bootstrapValues cfg targetNet trainNet (nextStatesOf batch)) (donesOf batch))

/-- Lines 157-158: `q_selected = q.gather(1, actions.unsqueeze(1)).squeeze(1)` —
the train net's value at the taken action, per sample. -/
def qSelectedList {Obs : Type} {n : ℕ} (trainNet : QNet Obs n)
    (batch : List (Transition Obs n)) : List ℚ :=
  batch.map (fun t => trainNet t.state t.action)

/-- Model of `F.smooth_l1_loss` with default beta 1: quadratic for
residuals below 1 in absolute value, linear beyond. -/
def smoothL1 (x y : ℚ) : ℚ :=
  if |x - y| < 1 then (x - y) ^ 2 / 2 else |x - y| - 1 / 2

/-- Line 160: `original_losses = F.smooth_l1_loss(q_selected, expected_q.detach(),
reduction='none')`. -/
def originalLosses {Obs : Type} {n : ℕ} (cfg : DqnReinforcerSettings)
    (targetNet trainNet : QNet Obs n) (batch : List (Transition Obs n)) : List ℚ :=
  List.zipWith smoothL1 (qSelectedList trainNet batch)
    (expectedQList cfg targetNet trainNet batch)

/-- Model of `torch.mean` on a vector: sum divided by element count. -/
def tmean (l : List ℚ) : ℚ := l.sum / l.length

/-- Lines 162-163: `loss = torch.mean(weights_tensor * original_losses)`. -/
def weightedLoss {Obs : Type} {n : ℕ} (cfg : DqnReinforcerSettings)
    (targetNet trainNet : QNet Obs n) (batch : List (Transition Obs n)) : ℚ :=
  tmean (List.zipWith (fun w l => w * l) (weightsOf batch)
    (originalLosses cfg targetNet trainNet batch))

/-- Per-sample closed form of one entry of `expected_q`. -/
def expectedQOf {Obs : Type} {n : ℕ} (cfg : DqnReinforcerSettings)
    (targetNet trainNet : QNet Obs n) (t : Transition Obs n) : ℚ :=
  t.reward + cfg.discountFactor * bootstrapValue cfg targetNet trainNet t.stateNext
    * (1 - doneFloat t.done)

/-- Per-sample closed form of one entry of `original_losses`. -/
def sampleLoss {Obs : Type} {n : ℕ} (cfg : DqnReinforcerSettings)
    (targetNet trainNet : QNet Obs n) (t : Transition Obs n) : ℚ :=
  smoothL1 (trainNet t.state t.action) (expectedQOf cfg targetNet trainNet t)

/-- A dual number: a scalar value together with the directional derivative
it carries through autodiff.  Used to express which quantities gradients
flow through. -/
structure Dnum where
  val : ℚ
  deriv : ℚ
  deriving DecidableEq

/-- Subtraction of dual numbers. -/
def dSub (a b : Dnum) : Dnum := ⟨a.val - b.val, a.deriv - b.deriv⟩

/-- Multiplication by a constant (the importance weights carry no
gradient). -/
def dScale (w : ℚ) (a : Dnum) : Dnum := ⟨w * a.val, w * a.deriv⟩

/-- Model of `tensor.detach()`: same value, no derivative. -/
def ddetach (a : Dnum) : Dnum := ⟨a.val, 0⟩

/-- `F.smooth_l1_loss` on dual numbers: derivative `z` on the quadratic
branch and `sign z` on the linear branch, for residual `z`. -/
def dSmoothL1 (x y : Dnum) : Dnum :=
  let z := dSub x y
  if |z.val| < 1 then ⟨z.val ^ 2 / 2, z.val * z.deriv⟩
  else ⟨|z.val| - 1 / 2, (if z.val < 0 then -1 else 1) * z.deriv⟩

/-- `torch.mean` on dual numbers. -/
def dMean (l : List Dnum) : Dnum :=
  ⟨(l.map Dnum.val).sum / l.length, (l.map Dnum.deriv).sum / l.length⟩

/-- Lines 160-163 on dual numbers: per-sample smooth-L1 of `q_selected`
against the detached `expected_q`, importance weights applied, then the
mean — the scalar loss with the derivative autodiff would propagate. -/
def dLoss (ws : List ℚ) (qsel expq : List Dnum) : Dnum :=
  dMean (List.zipWith dScale ws
    (List.zipWith (fun q e => dSmoothL1 q (ddetach e)) qsel expq))

/-- Sum of squares of a gradient vector (the square of its L2 norm). -/
def sumSq (l : List ℚ) : ℚ := (l.map (fun x => x ^ 2)).sum

/-- Model of `torch.nn.utils.clip_grad_norm_` at its documented semantics:
compute the total norm (`nrm` is the norm routine), scale all gradients by
`maxNorm / totalNorm` when the total norm exceeds `maxNorm`, and return
the pre-clip total norm. -/
def clipGradNorm (nrm : List ℚ → ℚ) (maxNorm : ℚ) (g : List ℚ) : ℚ × List ℚ :=
  if maxNorm < nrm g then (nrm g, g.map (fun x => maxNorm / nrm g * x))
  else (nrm g, g)

/-- The replay env roller contract used by `train_batch` (readiness,
single-step rollout returning an optional episode-info record of type `ε`,
replay sampling, and priority update), over an abstract roller state
`σ`. -/
structure EnvRoller (σ Obs : Type) (n : ℕ) (ε : Type) where
  isReadyForSampling : σ → Bool
  rollout : σ → σ × Option ε
  sample : σ → ℤ → List (Transition Obs n)
  bufferUpdate : σ → List ℚ → σ

/-- The torch-side collaborators of the reinforcer, over an abstract
parameter type `P`: forward semantics of a model instance, weight reset,
backpropagation of a scalar loss to a gradient vector, the optimizer step,
and the norm routine used by gradient clipping. -/
structure TorchOps (P Obs : Type) (n : ℕ) where
  net : P → QNet Obs n
  resetWeights : P → P
  backward : ℚ → P → List ℚ
  optStep : P → List ℚ → P
  l2norm : List ℚ → ℚ

/-- The mutable state the reinforcer owns: the roller state and the two
model parameter vectors. -/
structure DqnState (σ P : Type) where
  rollerState : σ
  trainParams : P
  targetParams : P
  deriving DecidableEq

/-- The scratch fields `train_batch` writes into `batch_info`:
`epsilon_value`, optionally `grad_norm`, `frames` and `episode_infos`
(lines 110, 175, 179-180). -/
structure BatchScratch (ε : Type) where
  epsilonValue : ℚ
  gradNorm : Option ℚ
  frames : ℕ
  episodeInfos : List ε
  deriving DecidableEq

/-- Calls `train_batch` makes on its collaborators, in trace order. -/
inductive Event where
  | rolloutStep : Event
  | zeroGrad : Event
  | sampleCall : ℤ → Event
  | backwardCall : Event
  | rollerUpdate : Event
  | clipCall : Event
  | optimizerStep : Event
  deriving DecidableEq

/-- Calls `train_epoch` makes, in trace order; callbacks are identified by
a number, batch events are embedded with their batch index. -/
inductive EpochEvent where
  | epochBegin : ℕ → EpochEvent
  | batchBegin : ℕ → ℕ → EpochEvent
  | inBatch : ℕ → Event → EpochEvent
  | batchEnd : ℕ → ℕ → EpochEvent
  | accumulateResult : ℕ → EpochEvent
  | freezeResults : EpochEvent
  | freezeEpochResult : EpochEvent
  | epochEnd : ℕ → EpochEvent
  deriving DecidableEq

/-- State reached after `k` single rollout steps. -/
def rollIter {σ Obs : Type} {n : ℕ} {ε : Type} (er : EnvRoller σ Obs n ε) :
    ℕ → σ → σ
  | 0, s => s
  | k + 1, s => rollIter er k (er.rollout s).1

/-- The warm-up loop of lines 115-122: `while not ready: rollout`, counting
frames and collecting episode infos.  `fuel` bounds the unrolling; `none`
means readiness was not reached within `fuel` steps. -/
def warmupRoll {σ Obs : Type} {n : ℕ} {ε : Type} (er : EnvRoller σ Obs n ε) :
    ℕ → σ → Option (σ × ℕ × List ε)
  | 0, s => if er.isReadyForSampling s then some (s, 0, []) else none
  | fuel + 1, s =>
    if er.isReadyForSampling s then some (s, 0, [])
    else
      (warmupRoll er fuel (er.rollout s).1).map (fun res =>
        (res.1, res.2.1 + 1,
          match (er.rollout s).2 with
          | some e => e :: res.2.2
          | none => res.2.2))

/-- The steady-state loop of lines 124-130: `for i in range(train_frequency)`,
one rollout per iteration, collecting episode infos. -/
def rollTimes {σ Obs : Type} {n : ℕ} {ε : Type} (er : EnvRoller σ Obs n ε) :
    ℕ → σ → σ × List ε
  | 0, s => (s, [])
  | k + 1, s =>
    let r := er.rollout s
    let rest := rollTimes er k r.1
    (rest.1,
      match r.2 with
      | some e => e :: rest.2
      | none => rest.2)

/-- The rollout phase of lines 114-130: warm-up burst when the buffer is
not ready, otherwise exactly `train_frequency` steps.  Returns the new
roller state, the frame count and the collected episode infos. -/
def rolloutPhase {σ Obs : Type} {n : ℕ} {ε : Type} (er : EnvRoller σ Obs n ε)
    (fuel : ℕ) (tf : ℤ) (s : σ) : Option (σ × ℕ × List ε) :=
  if !er.isReadyForSampling s then warmupRoll er fuel s
  else some ((rollTimes er tf.toNat s).1, tf.toNat, (rollTimes er tf.toNat s).2)

/-- Lines 133-180: the replay-and-train part of `train_batch` after the
rollout phase: zero gradients, sample `batch_size` transitions, build the
loss, backpropagate, feed the unweighted losses back to the roller,
optionally clip (recording the pre-clip norm), and apply one optimizer
step.  Returns the new state, the scratch fields and the call trace. -/
def replayTrainStep {σ Obs P ε : Type} {n : ℕ} (ops : TorchOps P Obs n)
    (er : EnvRoller σ Obs n ε) (cfg : DqnReinforcerSettings) (epsv : ℚ)
    (frames : ℕ) (epinfos : List ε) (s1 : σ) (trainP targetP : P) :
    DqnState σ P × BatchScratch ε × List Event :=
  let batch := er.sample s1 cfg.batchSize
  let targetNet := ops.net targetP
  let trainNet := ops.net trainP
  let losses := originalLosses cfg targetNet trainNet batch
  let loss := weightedLoss cfg targetNet trainNet batch
  let grads := ops.backward loss trainP
  let s2 := er.bufferUpdate s1 losses
  match cfg.maxGradNorm with
  | some c =>
    let r := clipGradNorm ops.l2norm c grads
    (⟨s2, ops.optStep trainP r.2, targetP⟩,
     ⟨epsv, some r.1, frames, epinfos⟩,
     List.replicate frames Event.rolloutStep
       ++ [Event.zeroGrad, Event.sampleCall cfg.batchSize, Event.backwardCall,
           Event.rollerUpdate, Event.clipCall, Event.optimizerStep])
  | none =>
    (⟨s2, ops.optStep trainP grads, targetP⟩,
     ⟨epsv, none, frames, epinfos⟩,
     List.replicate frames Event.rolloutStep
       ++ [Event.zeroGrad, Event.sampleCall cfg.batchSize, Event.backwardCall,
           Event.rollerUpdate, Event.optimizerStep])

/-- `train_batch` (lines 100-180): epsilon from the schedule, the rollout
phase, then the replay-and-train step.  `none` when the warm-up loop does
not reach readiness within `fuel` steps. -/
def trainBatch {σ Obs P ε : Type} {n : ℕ} (ops : TorchOps P Obs n)
    (er : EnvRoller σ Obs n ε) (cfg : DqnReinforcerSettings) (fuel : ℕ)
    (progress : ℚ) (st : DqnState σ P) :
    Option (DqnState σ P × BatchScratch ε × List Event) :=
  match rolloutPhase er fuel cfg.trainFrequency st.rollerState with
  | none => none
  | some r =>
    some (replayTrainStep ops er cfg (cfg.epsilonSchedule progress) r.2.1 r.2.2
      r.1 st.trainParams st.targetParams)

/-- `initialize_training` (lines 72-75): reset the train model's weights
and load that state dict into the target model. -/
def initTraining {σ Obs P : Type} {n : ℕ} (ops : TorchOps P Obs n)
    (st : DqnState σ P) : DqnState σ P :=
  let fresh := ops.resetWeights st.trainParams
  ⟨st.rollerState, fresh, fresh⟩

/-- The batch loop of `train_epoch` (lines 81-92) over the given batch
indices: per batch, `on_batch_begin` on every callback, `train_batch`,
`on_batch_end` on every callback, then the result-accumulator fold. -/
def runBatches {σ Obs P ε : Type} {n : ℕ} (ops : TorchOps P Obs n)
    (er : EnvRoller σ Obs n ε) (cfg : DqnReinforcerSettings) (fuel : ℕ)
    (callbacks : List ℕ) (progressOf : ℕ → ℚ) :
    List ℕ → DqnState σ P → Option (DqnState σ P × List EpochEvent)
  | [], st => some (st, [])
  | b :: bs, st =>
    match trainBatch ops er cfg fuel (progressOf b) st with
    | none => none
    | some r =>
      match runBatches ops er cfg fuel callbacks progressOf bs r.1 with
      | none => none
      | some rest =>
        some (rest.1,
          (callbacks.map (fun c => EpochEvent.batchBegin c b))
            ++ (r.2.2.map (EpochEvent.inBatch b)
              ++ ((callbacks.map (fun c => EpochEvent.batchEnd c b))
                ++ EpochEvent.accumulateResult b :: rest.2)))

/-- `train_epoch` (lines 77-98): `on_epoch_begin` on every callback, the
batch loop over `range(batches_per_epoch)`, freezing of the accumulated
results and of the epoch result, then `on_epoch_end` on every callback. -/
def trainEpoch {σ Obs P ε : Type} {n : ℕ} (ops : TorchOps P Obs n)
    (er : EnvRoller σ Obs n ε) (cfg : DqnReinforcerSettings) (fuel : ℕ)
    (callbacks : List ℕ) (batchesPerEpoch : ℕ) (progressOf : ℕ → ℚ)
    (st : DqnState σ P) : Option (DqnState σ P × List EpochEvent) :=
  (runBatches ops er cfg fuel callbacks progressOf
      (List.range batchesPerEpoch) st).map
    (fun r => (r.1,
      (callbacks.map EpochEvent.epochBegin)
        ++ (r.2
          ++ EpochEvent.freezeResults :: EpochEvent.freezeEpochResult
            :: callbacks.map EpochEvent.epochEnd)))

/-- The factory record built by `create` (lines 183-201): settings plus
the bound factories and seed, with factory types abstract. -/
structure DqnReinforcerFactory (EF MF RF : Type) where
  settings : DqnReinforcerSettings
  envFactory : EF
  modelFactory : MF
  envRollerFactory : RF
  seed : ℤ

/-- The `create` function (lines 204-221): builds the settings record from
its arguments verbatim and wraps it in a factory.  No validation is
performed. -/
def create (EF MF RF : Type) (modelConfigSeed : ℤ) (model : MF) (env : EF)
    (envRoller : RF) (epsilonSchedule : ℚ → ℚ)
    (trainFrequency batchSize targetUpdateFrequency : ℤ)
    (discountFactor : ℚ) (maxGradNorm : Option ℚ) (doubleDqn : Bool) :
    DqnReinforcerFactory EF MF RF :=
  ⟨⟨epsilonSchedule, trainFrequency, batchSize, doubleDqn,
    targetUpdateFrequency, discountFactor, maxGradNorm⟩,
   env, model, envRoller, modelConfigSeed⟩

/-- Trace-ordering predicate: every position holding an element satisfying
`p` comes strictly before every position holding an element satisfying
`q`. -/
def Precedes {α : Type} (d : α) (p q : α → Prop) (l : List α) : Prop :=
  ∀ i j, i < l.length → j < l.length → p (l.getD i d) → q (l.getD j d) → i < j

/-- The epoch events belonging to batch index `b`. -/
def MentionsBatch (b : ℕ) : EpochEvent → Prop := fun e =>
  (∃ c, e = EpochEvent.batchBegin c b) ∨ (∃ ev, e = EpochEvent.inBatch b ev)
    ∨ (∃ c, e = EpochEvent.batchEnd c b) ∨ e = EpochEvent.accumulateResult b

/-- Fixture target network with per-action spread, for witnesses. -/
def netA : QNet ℚ 1 := fun s a => s + a.val

/-- Fixture train network diverging from `netA`, for witnesses. -/
def netB : QNet ℚ 1 := fun s a => s - a.val

/-- Fixture settings with `double_dqn` enabled, for witnesses. -/
def cfgD : DqnReinforcerSettings :=
  ⟨fun _ => 1 / 10, 2, 3, true, 100, 9 / 10, none⟩

/-- Fixture settings without clipping, for witnesses. -/
def cfgW : DqnReinforcerSettings :=
  ⟨fun p => p / 2, 2, 3, false, 50, 9 / 10, none⟩

/-- Fixture settings with a gradient cap of 2, for witnesses. -/
def cfgC : DqnReinforcerSettings :=
  ⟨fun p => p / 2, 2, 3, false, 50, 9 / 10, some 2⟩

/-- Fixture terminal transition, for witnesses. -/
def trW : Transition ℚ 1 := ⟨1, 2, ⟨0, Nat.succ_pos 1⟩, 5, true, 1⟩

/-- Second fixture transition, for permutation witnesses. -/
def trW2 : Transition ℚ 1 := ⟨2, 3, ⟨1, Nat.one_lt_two⟩, -1, false, 2⟩

/-- Fixture env roller over roller state `ℕ`: ready once the state counter
reaches 2, each rollout increments it, sampling yields one fixed
transition, priority update adds 10. -/
def erW : EnvRoller ℕ ℚ 1 ℕ :=
  ⟨fun s => decide (2 ≤ s),
   fun s => (s + 1, if s = 0 then some 7 else none),
   fun s bs => [⟨(s : ℚ), (bs : ℚ), ⟨1, Nat.one_lt_two⟩, 5, false, 1⟩],
   fun s _ => s + 10⟩

/-- Fixture torch collaborators over parameter type `ℚ`. -/
def opsW : TorchOps ℚ ℚ 1 :=
  ⟨fun p s a => p + s + (a.val : ℚ),
   fun _ => 0,
   fun loss p => [loss, p],
   fun p g => p + g.sum,
   fun g => (g.map (fun x => |x|)).sum⟩

/-- Fixture reinforcer state with a cold replay buffer, for witnesses. -/
def stCold : DqnState ℕ ℚ := ⟨0, 4, 8⟩

/-- Fixture reinforcer state with a warm replay buffer, for witnesses. -/
def stWarm : DqnState ℕ ℚ := ⟨5, 4, 8⟩

/-- The replay-train result of the warm-start witness batch. -/
def tbW : DqnState ℕ ℚ × BatchScratch ℕ × List Event :=
  replayTrainStep opsW erW cfgW (cfgW.epsilonSchedule 0) 2 [] 7 4 8

/-- The replay-train result of the cold-start witness batch. -/
def tbC : DqnState ℕ ℚ × BatchScratch ℕ × List Event :=
  replayTrainStep opsW erW cfgW (cfgW.epsilonSchedule 0) 2 [7] 2 4 8

/-- The epoch result of the one-batch witness epoch. -/
def teW : DqnState ℕ ℚ × List EpochEvent :=
  (tbW.1,
    ([1].map EpochEvent.epochBegin)
      ++ ((([1].map (fun c => EpochEvent.batchBegin c 0))
          ++ (tbW.2.2.map (EpochEvent.inBatch 0)
            ++ (([1].map (fun c => EpochEvent.batchEnd c 0))
              ++ [EpochEvent.accumulateResult 0])))
        ++ EpochEvent.freezeResults :: EpochEvent.freezeEpochResult
          :: [1].map EpochEvent.epochEnd))

lemma argmax_fold_le {n : ℕ} (f : Fin (n + 1) → ℚ) :
    ∀ (l : List (Fin (n + 1))) (b : Fin (n + 1)),
      f b ≤ f (l.foldl (fun x i => if f x < f i then i else x) b) := by
  intro l
  induction l with
  | nil => intro b; exact le_rfl
  | cons i t ih =>
    intro b
    simp only [List.foldl_cons]
    by_cases h : f b < f i
    · rw [if_pos h]
      exact (le_of_lt h).trans (ih i)
    · rw [if_neg h]
      exact ih b

lemma argmax_fold_mem_le {n : ℕ} (f : Fin (n + 1) → ℚ) :
    ∀ (l : List (Fin (n + 1))) (b : Fin (n + 1)), ∀ a ∈ l,
      f a ≤ f (l.foldl (fun x i => if f x < f i then i else x) b) := by
  intro l
  induction l with
  | nil => intro b a ha; cases ha
  | cons i t ih =>
    intro b a ha
    simp only [List.foldl_cons]
    rcases List.mem_cons.mp ha with rfl | hat
    · by_cases h : f b < f a
      · rw [if_pos h]
        exact argmax_fold_le f t a
      · rw [if_neg h]
        exact (le_of_not_lt h).trans (argmax_fold_le f t b)
    · by_cases h : f b < f i
      · rw [if_pos h]
        exact ih i a hat
      · rw [if_neg h]
        exact ih b a hat

/-- The argmax index attains the row maximum. -/
lemma le_argmaxQ {n : ℕ} (f : Fin (n + 1) → ℚ) (a : Fin (n + 1)) :
    f a ≤ f (argmaxQ f) :=
  argmax_fold_mem_le f (List.finRange (n + 1)) ⟨0, Nat.succ_pos n⟩ a (List.mem_finRange a)

lemma max_fold_le_init {n : ℕ} (f : Fin (n + 1) → ℚ) :
    ∀ (l : List (Fin (n + 1))) (b : ℚ), b ≤ l.foldl (fun x i => max x (f i)) b := by
  intro l
  induction l with
  | nil => intro b; exact le_rfl
  | cons i t ih =>
    intro b
    simp only [List.foldl_cons]
    exact (le_max_left b (f i)).trans (ih (max b (f i)))

lemma max_fold_mem_le {n : ℕ} (f : Fin (n + 1) → ℚ) :
    ∀ (l : List (Fin (n + 1))) (b : ℚ), ∀ a ∈ l,
      f a ≤ l.foldl (fun x i => max x (f i)) b := by
  intro l
  induction l with
  | nil => intro b a ha; cases ha
  | cons i t ih =>
    intro b a ha
    simp only [List.foldl_cons]
    rcases List.mem_cons.mp ha with rfl | hat
    · exact (le_max_right b (f a)).trans (max_fold_le_init f t (max b (f a)))
    · exact ih (max b (f i)) a hat

lemma max_fold_cases {n : ℕ} (f : Fin (n + 1) → ℚ) :
    ∀ (l : List (Fin (n + 1))) (b : ℚ),
      l.foldl (fun x i => max x (f i)) b = b
        ∨ ∃ a ∈ l, l.foldl (fun x i => max x (f i)) b = f a := by
  intro l
  induction l with
  | nil => intro b; exact Or.inl rfl
  | cons i t ih =>
    intro b
    simp only [List.foldl_cons]
    rcases ih (max b (f i)) with h | ⟨a, ha, h⟩
    · rcases max_choice b (f i) with hm | hm
      · exact Or.inl (h.trans hm)
      · exact Or.inr ⟨i, List.mem_cons_self i t, h.trans hm⟩
    · exact Or.inr ⟨a, List.mem_cons_of_mem i ha, h⟩

/-- Every action value is at most the row maximum. -/
lemma le_maxQ {n : ℕ} (f : Fin (n + 1) → ℚ) (a : Fin (n + 1)) : f a ≤ maxQ f :=
  max_fold_mem_le f (List.finRange (n + 1)) (f ⟨0, Nat.succ_pos n⟩) a (List.mem_finRange a)

/-- The row maximum is attained by some action. -/
lemma maxQ_attained {n : ℕ} (f : Fin (n + 1) → ℚ) : ∃ a, maxQ f = f a := by
  rcases max_fold_cases f (List.finRange (n + 1)) (f ⟨0, Nat.succ_pos n⟩) with h | ⟨a, _, h⟩
  · exact ⟨⟨0, Nat.succ_pos n⟩, h⟩
  · exact ⟨a, h⟩

lemma bootstrapValues_eq_map {Obs : Type} {n : ℕ} (cfg : DqnReinforcerSettings)
    (targetNet trainNet : QNet Obs n) (l : List Obs) :
    bootstrapValues cfg targetNet trainNet l
      = l.map (bootstrapValue cfg targetNet trainNet) := by
  unfold bootstrapValues bootstrapValue
  cases h : cfg.doubleDqn <;> simp [h]

lemma zipWith_map_same {α β γ δ : Type} (f : β → γ → δ) (g : α → β) (h : α → γ)
    (l : List α) :
    List.zipWith f (l.map g) (l.map h) = l.map (fun a => f (g a) (h a)) := by
  induction l with
  | nil => rfl
  | cons a t ih => simp [ih]

lemma expectedQList_eq_map {Obs : Type} {n : ℕ} (cfg : DqnReinforcerSettings)
    (targetNet trainNet : QNet Obs n) (batch : List (Transition Obs n)) :
    expectedQList cfg targetNet trainNet batch
      = batch.map (expectedQOf cfg targetNet trainNet) := by
  unfold expectedQList rewardsOf donesOf nextStatesOf
  rw [bootstrapValues_eq_map, List.map_map, zipWith_map_same, zipWith_map_same]
  rfl

lemma originalLosses_eq_map {Obs : Type} {n : ℕ} (cfg : DqnReinforcerSettings)
    (targetNet trainNet : QNet Obs n) (batch : List (Transition Obs n)) :
    originalLosses cfg targetNet trainNet batch
      = batch.map (sampleLoss cfg targetNet trainNet) := by
  unfold originalLosses qSelectedList
  rw [expectedQList_eq_map, zipWith_map_same]
  rfl

lemma weightedLoss_eq_map {Obs : Type} {n : ℕ} (cfg : DqnReinforcerSettings)
    (targetNet trainNet : QNet Obs n) (batch : List (Transition Obs n)) :
    weightedLoss cfg targetNet trainNet batch
      = tmean (batch.map (fun t => t.weight * sampleLoss cfg targetNet trainNet t)) := by
  unfold weightedLoss weightsOf
  rw [originalLosses_eq_map, zipWith_map_same]

lemma bootstrapValues_getD {Obs : Type} {n : ℕ} (cfg : DqnReinforcerSettings)
    (targetNet trainNet : QNet Obs n) (batch : List (Transition Obs n)) (i : ℕ)
    (hi : i < batch.length) :
    (bootstrapValues cfg targetNet trainNet (nextStatesOf batch)).getD i 0
      = bootstrapValue cfg targetNet trainNet (batch.get ⟨i, hi⟩).stateNext := by
  rw [bootstrapValues_eq_map]
  unfold nextStatesOf
  rw [List.map_map]
  rw [List.getD_eq_getElem _ _ (by simpa using hi)]
  simp

lemma getD_mem_of_lt {α : Type} (l : List α) (i : ℕ) (d : α) (h : i < l.length) :
    l.getD i d ∈ l := by
  rw [List.getD_eq_getElem _ _ h]
  exact List.getElem_mem h

lemma precedes_append_split {α : Type} (d : α) (p q : α → Prop) (l1 l2 : List α)
    (h1 : ∀ e ∈ l1, ¬ q e) (h2 : ∀ e ∈ l2, ¬ p e) : Precedes d p q (l1 ++ l2) := by
  intro i j hi hj hp hq
  have hi1 : i < l1.length := by
    by_contra hge
    push_neg at hge
    rw [List.getD_append_right _ _ _ _ hge] at hp
    have hlt : i - l1.length < l2.length := by
      rw [List.length_append] at hi
      omega
    exact h2 _ (getD_mem_of_lt _ _ _ hlt) hp
  have hj1 : l1.length ≤ j := by
    by_contra hlt
    push_neg at hlt
    rw [List.getD_append _ _ _ _ hlt] at hq
    exact h1 _ (getD_mem_of_lt _ _ _ hlt) hq
  omega

lemma precedes_append_left {α : Type} (d : α) (p q : α → Prop) (l1 l2 : List α)
    (h : Precedes d p q l1) (h2 : ∀ e ∈ l2, ¬ p e) : Precedes d p q (l1 ++ l2) := by
  intro i j hi hj hp hq
  have hi1 : i < l1.length := by
    by_contra hge
    push_neg at hge
    rw [List.getD_append_right _ _ _ _ hge] at hp
    have hlt : i - l1.length < l2.length := by
      rw [List.length_append] at hi
      omega
    exact h2 _ (getD_mem_of_lt _ _ _ hlt) hp
  by_cases hj1 : j < l1.length
  · rw [List.getD_append _ _ _ _ hi1] at hp
    rw [List.getD_append _ _ _ _ hj1] at hq
    exact h i j hi1 hj1 hp hq
  · omega

lemma precedes_append_right {α : Type} (d : α) (p q : α → Prop) (l1 l2 : List α)
    (h1 : ∀ e ∈ l1, ¬ q e) (h : Precedes d p q l2) : Precedes d p q (l1 ++ l2) := by
  intro i j hi hj hp hq
  have hj1 : l1.length ≤ j := by
    by_contra hlt
    push_neg at hlt
    rw [List.getD_append _ _ _ _ hlt] at hq
    exact h1 _ (getD_mem_of_lt _ _ _ hlt) hq
  by_cases hi1 : i < l1.length
  · omega
  · push_neg at hi1
    rw [List.getD_append_right _ _ _ _ hi1] at hp
    rw [List.getD_append_right _ _ _ _ hj1] at hq
    have hi2 : i - l1.length < l2.length := by
      rw [List.length_append] at hi
      omega
    have hj2 : j - l1.length < l2.length := by
      rw [List.length_append] at hj
      omega
    have := h _ _ hi2 hj2 hp hq
    omega

lemma forall_mem_ne_of_not_mem {α : Type} (l : List α) (x : α) (h : x ∉ l) :
    ∀ e ∈ l, ¬ e = x :=
  fun _ he heq => h (heq ▸ he)

/-- C1: in `train_batch` the bootstrap value of a sampled transition is, with
`double_dqn`, the target net's value at the action maximising the train net's
row on the next-state, and, without `double_dqn`, the maximum of the target
net's row on the next-state (lines 144-153). -/
theorem claim1 {Obs : Type} {n : ℕ} (cfg : DqnReinforcerSettings)
    (targetNet trainNet : QNet Obs n) (batch : List (Transition Obs n)) (i : ℕ)
    (hi : i < batch.length) :
    (cfg.doubleDqn = true →
      (bootstrapValues cfg targetNet trainNet (nextStatesOf batch)).getD i 0
          = targetNet (batch.get ⟨i, hi⟩).stateNext
              (argmaxQ (trainNet (batch.get ⟨i, hi⟩).stateNext))
        ∧ ∀ a, trainNet (batch.get ⟨i, hi⟩).stateNext a
            ≤ trainNet (batch.get ⟨i, hi⟩).stateNext
                (argmaxQ (trainNet (batch.get ⟨i, hi⟩).stateNext)))
    ∧ (cfg.doubleDqn = false →
      (∀ a, targetNet (batch.get ⟨i, hi⟩).stateNext a
          ≤ (bootstrapValues cfg targetNet trainNet (nextStatesOf batch)).getD i 0)
        ∧ ∃ a, (bootstrapValues cfg targetNet trainNet (nextStatesOf batch)).getD i 0
            = targetNet (batch.get ⟨i, hi⟩).stateNext a) := by
  have hkey := bootstrapValues_getD cfg targetNet trainNet batch i hi
  constructor
  · intro hd
    rw [hkey]
    unfold bootstrapValue
    rw [hd]
    exact ⟨by simp, fun a => le_argmaxQ _ a⟩
  · intro hd
    rw [hkey]
    unfold bootstrapValue
    rw [hd]
    simp only [Bool.false_eq_true, if_false]
    exact ⟨fun a => le_maxQ _ a, maxQ_attained _⟩

/-- C2: every entry of `expected_q` equals
`reward + discount_factor * bootstrap * (1 - done)`, and a terminal
transition's entry equals its reward for every possible target network
(line 155). -/
theorem claim2 {Obs : Type} {n : ℕ} (cfg : DqnReinforcerSettings)
    (targetNet trainNet : QNet Obs n) (batch : List (Transition Obs n)) (i : ℕ)
    (hi : i < batch.length) :
    (expectedQList cfg targetNet trainNet batch).getD i 0
        = (batch.get ⟨i, hi⟩).reward
          + cfg.discountFactor
            * bootstrapValue cfg targetNet trainNet (batch.get ⟨i, hi⟩).stateNext
            * (1 - doneFloat (batch.get ⟨i, hi⟩).done)
    ∧ ((batch.get ⟨i, hi⟩).done = true → ∀ targetNet2 : QNet Obs n,
        (expectedQList cfg targetNet2 trainNet batch).getD i 0
          = (batch.get ⟨i, hi⟩).reward) := by
  have hkey : ∀ tn2 : QNet Obs n,
      (expectedQList cfg tn2 trainNet batch).getD i 0
        = expectedQOf cfg tn2 trainNet (batch.get ⟨i, hi⟩) := by
    intro tn2
    rw [expectedQList_eq_map]
    rw [List.getD_eq_getElem _ _ (by simpa using hi)]
    simp
  constructor
  · rw [hkey targetNet]
    rfl
  · intro hdone tn2
    rw [hkey tn2]
    unfold expectedQOf doneFloat
    rw [hdone]
    simp

/-- Witness for C1 at a singleton batch. -/
theorem claim1_witness :
    (cfgD.doubleDqn = true →
      (bootstrapValues cfgD netA netB (nextStatesOf [trW])).getD 0 0
          = netA trW.stateNext (argmaxQ (netB trW.stateNext))
        ∧ ∀ a, netB trW.stateNext a ≤ netB trW.stateNext (argmaxQ (netB trW.stateNext)))
    ∧ (cfgD.doubleDqn = false →
      (∀ a, netA trW.stateNext a
          ≤ (bootstrapValues cfgD netA netB (nextStatesOf [trW])).getD 0 0)
        ∧ ∃ a, (bootstrapValues cfgD netA netB (nextStatesOf [trW])).getD 0 0
            = netA trW.stateNext a) :=
  claim1 cfgD netA netB [trW] 0 (Nat.succ_pos 0)

/-- Witness for C2 at a singleton batch whose transition is terminal. -/
theorem claim2_witness :
    (expectedQList cfgD netA netB [trW]).getD 0 0
        = trW.reward + cfgD.discountFactor * bootstrapValue cfgD netA netB trW.stateNext
            * (1 - doneFloat trW.done)
    ∧ (trW.done = true → ∀ tn2 : QNet ℚ 1,
        (expectedQList cfgD tn2 netB [trW]).getD 0 0 = trW.reward) :=
  claim2 cfgD netA netB [trW] 0 (Nat.succ_pos 0)

lemma dSmoothL1_detach_val (q e1 e2 : Dnum) (h : e1.val = e2.val) :
    dSmoothL1 q (ddetach e1) = dSmoothL1 q (ddetach e2) := by
  unfold ddetach
  rw [h]

lemma zipWith_detach_congr :
    ∀ (qsel e1 e2 : List Dnum), e1.map Dnum.val = e2.map Dnum.val →
      List.zipWith (fun q e => dSmoothL1 q (ddetach e)) qsel e1
        = List.zipWith (fun q e => dSmoothL1 q (ddetach e)) qsel e2 := by
  intro qsel
  induction qsel with
  | nil => intro e1 e2 _; rfl
  | cons q qs ih =>
    intro e1 e2 h
    cases e1 with
    | nil =>
      cases e2 with
      | nil => rfl
      | cons b bs => simp at h
    | cons a as =>
      cases e2 with
      | nil => simp at h
      | cons b bs =>
        simp only [List.map_cons, List.cons.injEq] at h
        simp only [List.zipWith_cons_cons]
        rw [dSmoothL1_detach_val q a b h.1, ih as bs h.2]

/-- C4: the scalar loss is the mean over the batch of
`weight * smoothL1(q_selected, expected_q)`; smooth-L1 is quadratic for
small residuals and linear for large ones; and on the dual-number model of
lines 160-163 the loss — derivative included — is unchanged by any change
to the derivative components of `expected_q`, because `expected_q` is
detached (lines 157-163). -/
theorem claim4 {Obs : Type} {n : ℕ} (cfg : DqnReinforcerSettings)
    (targetNet trainNet : QNet Obs n) (batch : List (Transition Obs n)) :
    weightedLoss cfg targetNet trainNet batch
        = (batch.map (fun t => t.weight
            * smoothL1 (trainNet t.state t.action)
                (expectedQOf cfg targetNet trainNet t))).sum / batch.length
    ∧ (∀ x y : ℚ, |x - y| < 1 → smoothL1 x y = (x - y) ^ 2 / 2)
    ∧ (∀ x y : ℚ, 1 ≤ |x - y| → smoothL1 x y = |x - y| - 1 / 2)
    ∧ (∀ (ws : List ℚ) (qsel e1 e2 : List Dnum),
        e1.map Dnum.val = e2.map Dnum.val → dLoss ws qsel e1 = dLoss ws qsel e2) := by
  refine ⟨?_, ?_, ?_, ?_⟩
  · rw [weightedLoss_eq_map]
    simp [tmean, sampleLoss]
  · intro x y h
    unfold smoothL1
    rw [if_pos h]
  · intro x y h
    unfold smoothL1
    rw [if_neg (not_lt.mpr h)]
  · intro ws qsel e1 e2 h
    unfold dLoss
    rw [zipWith_detach_congr qsel e1 e2 h]

/-- Witness for C4 on a two-sample batch. -/
theorem claim4_witness :
    weightedLoss cfgD netA netB [trW, trW2]
        = ([trW, trW2].map (fun t => t.weight
            * smoothL1 (netB t.state t.action)
                (expectedQOf cfgD netA netB t))).sum / ([trW, trW2] : List (Transition ℚ 1)).length
    ∧ (∀ x y : ℚ, |x - y| < 1 → smoothL1 x y = (x - y) ^ 2 / 2)
    ∧ (∀ x y : ℚ, 1 ≤ |x - y| → smoothL1 x y = |x - y| - 1 / 2)
    ∧ (∀ (ws : List ℚ) (qsel e1 e2 : List Dnum),
        e1.map Dnum.val = e2.map Dnum.val → dLoss ws qsel e1 = dLoss ws qsel e2) :=
  claim4 cfgD netA netB [trW, trW2]

lemma replayTrainStep_rollerState {σ Obs P ε : Type} {n : ℕ} (ops : TorchOps P Obs n)
    (er : EnvRoller σ Obs n ε) (cfg : DqnReinforcerSettings) (epsv : ℚ) (k : ℕ)
    (eps : List ε) (s1 : σ) (tp gp : P) :
    (replayTrainStep ops er cfg epsv k eps s1 tp gp).1.rollerState
      = er.bufferUpdate s1
          (originalLosses cfg (ops.net gp) (ops.net tp) (er.sample s1 cfg.batchSize)) := by
  unfold replayTrainStep
  cases cfg.maxGradNorm <;> rfl

/-- C7: the scalar loss is invariant under permuting the batch, while the
per-sample losses handed to `env_roller.update` (line 167) are the
unweighted elementwise losses in batch order. -/
theorem claim7 {Obs σ P ε : Type} {n : ℕ} (cfg : DqnReinforcerSettings)
    (targetNet trainNet : QNet Obs n) (batch batch2 : List (Transition Obs n))
    (hp : batch.Perm batch2) (i : ℕ) (hi : i < batch.length)
    (ops : TorchOps P Obs n) (er : EnvRoller σ Obs n ε) (epsv : ℚ) (k : ℕ)
    (eps : List ε) (s1 : σ) (tp gp : P) (st2 : DqnState σ P)
    (scr : BatchScratch ε) (tr : List Event)
    (h : replayTrainStep ops er cfg epsv k eps s1 tp gp = (st2, scr, tr)) :
    weightedLoss cfg targetNet trainNet batch
        = weightedLoss cfg targetNet trainNet batch2
    ∧ (originalLosses cfg targetNet trainNet batch).getD i 0
        = smoothL1 (trainNet (batch.get ⟨i, hi⟩).state (batch.get ⟨i, hi⟩).action)
            (expectedQOf cfg targetNet trainNet (batch.get ⟨i, hi⟩))
    ∧ st2.rollerState
        = er.bufferUpdate s1
            (originalLosses cfg (ops.net gp) (ops.net tp) (er.sample s1 cfg.batchSize)) := by
  refine ⟨?_, ?_, ?_⟩
  · rw [weightedLoss_eq_map, weightedLoss_eq_map]
    unfold tmean
    have hm := hp.map (fun t => t.weight * sampleLoss cfg targetNet trainNet t)
    rw [hm.sum_eq, hm.length_eq]
  · rw [originalLosses_eq_map]
    rw [List.getD_eq_getElem _ _ (by simpa using hi)]
    simp [sampleLoss]
  · have hr := replayTrainStep_rollerState ops er cfg epsv k eps s1 tp gp
    rw [h] at hr
    exact hr

/-- Witness for C7 at a two-sample batch and its swap. -/
theorem claim7_witness :
    weightedLoss cfgW netA netB [trW, trW2]
        = weightedLoss cfgW netA netB [trW2, trW]
    ∧ (originalLosses cfgW netA netB [trW, trW2]).getD 0 0
        = smoothL1 (netB trW.state trW.action) (expectedQOf cfgW netA netB trW)
    ∧ tbW.1.rollerState
        = erW.bufferUpdate 7
            (originalLosses cfgW (opsW.net 8) (opsW.net 4) (erW.sample 7 cfgW.batchSize)) :=
  claim7 cfgW netA netB [trW, trW2] [trW2, trW] (by decide) 0 (by decide)
    opsW erW (cfgW.epsilonSchedule 0) 2 [] 7 4 8 tbW.1 tbW.2.1 tbW.2.2 rfl

lemma warmupRoll_spec {σ Obs : Type} {n : ℕ} {ε : Type} (er : EnvRoller σ Obs n ε) :
    ∀ (fuel : ℕ) (s s2 : σ) (k : ℕ) (eps : List ε),
      warmupRoll er fuel s = some (s2, k, eps) →
        s2 = rollIter er k s ∧ er.isReadyForSampling (rollIter er k s) = true
          ∧ ∀ j < k, er.isReadyForSampling (rollIter er j s) = false := by
  intro fuel
  induction fuel with
  | zero =>
    intro s s2 k eps h
    unfold warmupRoll at h
    by_cases hr : er.isReadyForSampling s
    · rw [if_pos hr] at h
      simp only [Option.some.injEq, Prod.mk.injEq] at h
      obtain ⟨h1, h2, -⟩ := h
      subst h1
      subst h2
      exact ⟨rfl, hr, by omega⟩
    · rw [if_neg hr] at h
      cases h
  | succ fuel ih =>
    intro s s2 k eps h
    unfold warmupRoll at h
    by_cases hr : er.isReadyForSampling s
    · rw [if_pos hr] at h
      simp only [Option.some.injEq, Prod.mk.injEq] at h
      obtain ⟨h1, h2, -⟩ := h
      subst h1
      subst h2
      exact ⟨rfl, hr, by omega⟩
    · rw [if_neg hr] at h
      cases hw : warmupRoll er fuel (er.rollout s).1 with
      | none =>
        rw [hw] at h
        simp at h
      | some res =>
        rw [hw] at h
        simp only [Option.map_some', Option.some.injEq, Prod.mk.injEq] at h
        obtain ⟨h1, h2, -⟩ := h
        have hres := ih (er.rollout s).1 res.1 res.2.1 res.2.2 (by rw [hw])
        subst h1
        subst h2
        refine ⟨hres.1, hres.2.1, ?_⟩
        intro j hj
        cases j with
        | zero =>
          simp only [Bool.not_eq_true] at hr
          exact hr
        | succ j2 =>
          exact hres.2.2 j2 (by omega)

lemma rolloutPhase_cold {σ Obs : Type} {n : ℕ} {ε : Type} (er : EnvRoller σ Obs n ε)
    (fuel : ℕ) (tf : ℤ) (s : σ) (hc : er.isReadyForSampling s = false) :
    rolloutPhase er fuel tf s = warmupRoll er fuel s := by
  unfold rolloutPhase
  rw [hc]
  rfl

lemma rolloutPhase_warm {σ Obs : Type} {n : ℕ} {ε : Type} (er : EnvRoller σ Obs n ε)
    (fuel : ℕ) (tf : ℤ) (s : σ) (hw : er.isReadyForSampling s = true) :
    rolloutPhase er fuel tf s
      = some ((rollTimes er tf.toNat s).1, tf.toNat, (rollTimes er tf.toNat s).2) := by
  unfold rolloutPhase
  rw [hw]
  rfl

lemma trainBatch_inv {σ Obs P ε : Type} {n : ℕ} (ops : TorchOps P Obs n)
    (er : EnvRoller σ Obs n ε) (cfg : DqnReinforcerSettings) (fuel : ℕ)
    (progress : ℚ) (st st1 : DqnState σ P) (scr : BatchScratch ε) (tr : List Event)
    (h : trainBatch ops er cfg fuel progress st = some (st1, scr, tr)) :
    ∃ s1 k eps,
      rolloutPhase er fuel cfg.trainFrequency st.rollerState = some (s1, k, eps)
        ∧ (st1, scr, tr) = replayTrainStep ops er cfg (cfg.epsilonSchedule progress)
            k eps s1 st.trainParams st.targetParams := by
  unfold trainBatch at h
  cases hrp : rolloutPhase er fuel cfg.trainFrequency st.rollerState with
  | none =>
    rw [hrp] at h
    cases h
  | some r =>
    rw [hrp] at h
    refine ⟨r.1, r.2.1, r.2.2, rfl, ?_⟩
    exact (Option.some.inj h).symm

lemma replayTrainStep_frames {σ Obs P ε : Type} {n : ℕ} (ops : TorchOps P Obs n)
    (er : EnvRoller σ Obs n ε) (cfg : DqnReinforcerSettings) (epsv : ℚ) (k : ℕ)
    (eps : List ε) (s1 : σ) (tp gp : P) :
    (replayTrainStep ops er cfg epsv k eps s1 tp gp).2.1.frames = k := by
  unfold replayTrainStep
  cases cfg.maxGradNorm <;> rfl

lemma replayTrainStep_targetParams {σ Obs P ε : Type} {n : ℕ} (ops : TorchOps P Obs n)
    (er : EnvRoller σ Obs n ε) (cfg : DqnReinforcerSettings) (epsv : ℚ) (k : ℕ)
    (eps : List ε) (s1 : σ) (tp gp : P) :
    (replayTrainStep ops er cfg epsv k eps s1 tp gp).1.targetParams = gp := by
  unfold replayTrainStep
  cases cfg.maxGradNorm <;> rfl

lemma replayTrainStep_trace_none {σ Obs P ε : Type} {n : ℕ} (ops : TorchOps P Obs n)
    (er : EnvRoller σ Obs n ε) (cfg : DqnReinforcerSettings) (epsv : ℚ) (k : ℕ)
    (eps : List ε) (s1 : σ) (tp gp : P) (h : cfg.maxGradNorm = none) :
    (replayTrainStep ops er cfg epsv k eps s1 tp gp).2.2
      = List.replicate k Event.rolloutStep
          ++ [Event.zeroGrad, Event.sampleCall cfg.batchSize, Event.backwardCall,
              Event.rollerUpdate, Event.optimizerStep] := by
  unfold replayTrainStep
  rw [h]

lemma replayTrainStep_trace_some {σ Obs P ε : Type} {n : ℕ} (ops : TorchOps P Obs n)
    (er : EnvRoller σ Obs n ε) (cfg : DqnReinforcerSettings) (epsv : ℚ) (k : ℕ)
    (eps : List ε) (s1 : σ) (tp gp : P) (c : ℚ) (h : cfg.maxGradNorm = some c) :
    (replayTrainStep ops er cfg epsv k eps s1 tp gp).2.2
      = List.replicate k Event.rolloutStep
          ++ [Event.zeroGrad, Event.sampleCall cfg.batchSize, Event.backwardCall,
              Event.rollerUpdate, Event.clipCall, Event.optimizerStep] := by
  unfold replayTrainStep
  rw [h]

lemma replayTrainStep_rollout_first {σ Obs P ε : Type} {n : ℕ} (ops : TorchOps P Obs n)
    (er : EnvRoller σ Obs n ε) (cfg : DqnReinforcerSettings) (epsv : ℚ) (k : ℕ)
    (eps : List ε) (s1 : σ) (tp gp : P) (q : Event → Prop)
    (hq1 : ¬ q Event.rolloutStep) :
    Precedes Event.zeroGrad (fun e => e = Event.rolloutStep) q
      (replayTrainStep ops er cfg epsv k eps s1 tp gp).2.2 := by
  cases hm : cfg.maxGradNorm with
  | none =>
    rw [replayTrainStep_trace_none ops er cfg epsv k eps s1 tp gp hm]
    apply precedes_append_split
    · intro e he hqe
      rw [List.eq_of_mem_replicate he] at hqe
      exact hq1 hqe
    · intro e he heq
      subst heq
      simp at he
  | some c =>
    rw [replayTrainStep_trace_some ops er cfg epsv k eps s1 tp gp c hm]
    apply precedes_append_split
    · intro e he hqe
      rw [List.eq_of_mem_replicate he] at hqe
      exact hq1 hqe
    · intro e he heq
      subst heq
      simp at he

/-- C3: per `train_batch` call, a cold start rolls one step at a time until
readiness — the frame counter counts exactly those steps, every intermediate
state is not ready and the final one is — while a warm start rolls exactly
`train_frequency` steps; rollout steps always precede the replay sampling
(lines 112-136). -/
theorem claim3 {σ Obs P ε : Type} {n : ℕ} (ops : TorchOps P Obs n)
    (er : EnvRoller σ Obs n ε) (cfg : DqnReinforcerSettings) (fuel : ℕ)
    (progress : ℚ) (st stw st1 : DqnState σ P) (scr1 : BatchScratch ε)
    (tr1 : List Event) (stw1 : DqnState σ P) (scrw : BatchScratch ε)
    (trw : List Event)
    (hcold : er.isReadyForSampling st.rollerState = false)
    (h1 : trainBatch ops er cfg fuel progress st = some (st1, scr1, tr1))
    (hwarm : er.isReadyForSampling stw.rollerState = true)
    (h2 : trainBatch ops er cfg fuel progress stw = some (stw1, scrw, trw))
    (htf : 0 ≤ cfg.trainFrequency) :
    (∀ j < scr1.frames, er.isReadyForSampling (rollIter er j st.rollerState) = false)
    ∧ er.isReadyForSampling (rollIter er scr1.frames st.rollerState) = true
    ∧ (scrw.frames : ℤ) = cfg.trainFrequency
    ∧ Precedes Event.zeroGrad (fun e => e = Event.rolloutStep)
        (fun e => e = Event.sampleCall cfg.batchSize) tr1 := by
  obtain ⟨s1, k, eps, hrp, heq⟩ :=
    trainBatch_inv ops er cfg fuel progress st st1 scr1 tr1 h1
  obtain ⟨s1w, kw, epsw, hrpw, heqw⟩ :=
    trainBatch_inv ops er cfg fuel progress stw stw1 scrw trw h2
  have hscr1 : scr1.frames = k := by
    have := congrArg (fun x => x.2.1.frames) heq
    simpa [replayTrainStep_frames] using this
  have hscrw : scrw.frames = kw := by
    have := congrArg (fun x => x.2.1.frames) heqw
    simpa [replayTrainStep_frames] using this
  rw [rolloutPhase_cold er fuel cfg.trainFrequency st.rollerState hcold] at hrp
  have hspec := warmupRoll_spec er fuel st.rollerState s1 k eps hrp
  rw [rolloutPhase_warm er fuel cfg.trainFrequency stw.rollerState hwarm] at hrpw
  have hkw : kw = cfg.trainFrequency.toNat :=
    (congrArg (fun x => x.2.1) (Option.some.inj hrpw)).symm
  refine ⟨?_, ?_, ?_, ?_⟩
  · rw [hscr1]
    exact hspec.2.2
  · rw [hscr1]
    exact hspec.2.1
  · rw [hscrw, hkw]
    exact Int.toNat_of_nonneg htf
  · have htr1 : tr1 = (replayTrainStep ops er cfg (cfg.epsilonSchedule progress)
        k eps s1 st.trainParams st.targetParams).2.2 :=
      congrArg (fun x => x.2.2) heq
    rw [htr1]
    exact replayTrainStep_rollout_first ops er cfg _ k eps s1 _ _ _ (by simp)

/-- Witness for C3: a cold-start batch warming up in 2 steps and a
warm-start batch rolling `train_frequency = 2` steps. -/
theorem claim3_witness :
    (∀ j < tbC.2.1.frames, erW.isReadyForSampling (rollIter erW j stCold.rollerState) = false)
    ∧ erW.isReadyForSampling (rollIter erW tbC.2.1.frames stCold.rollerState) = true
    ∧ (tbW.2.1.frames : ℤ) = cfgW.trainFrequency
    ∧ Precedes Event.zeroGrad (fun e => e = Event.rolloutStep)
        (fun e => e = Event.sampleCall cfgW.batchSize) tbC.2.2 :=
  claim3 opsW erW cfgW 5 0 stCold stWarm tbC.1 tbC.2.1 tbC.2.2 tbW.1 tbW.2.1 tbW.2.2
    rfl rfl rfl rfl (by decide)

/-- C10: every successful `train_batch` call — cold start included — makes
exactly one replay-sample call of size `batch_size` and exactly one
optimizer step, both after all rollout steps (lines 114-177). -/
theorem claim10 {σ Obs P ε : Type} {n : ℕ} (ops : TorchOps P Obs n)
    (er : EnvRoller σ Obs n ε) (cfg : DqnReinforcerSettings) (fuel : ℕ)
    (progress : ℚ) (st st1 : DqnState σ P) (scr : BatchScratch ε) (tr : List Event)
    (h : trainBatch ops er cfg fuel progress st = some (st1, scr, tr)) :
    tr.count (Event.sampleCall cfg.batchSize) = 1
    ∧ tr.count Event.optimizerStep = 1
    ∧ Precedes Event.zeroGrad (fun e => e = Event.rolloutStep)
        (fun e => e = Event.optimizerStep) tr := by
  obtain ⟨s1, k, eps, hrp, heq⟩ :=
    trainBatch_inv ops er cfg fuel progress st st1 scr tr h
  have htr : tr = (replayTrainStep ops er cfg (cfg.epsilonSchedule progress)
      k eps s1 st.trainParams st.targetParams).2.2 :=
    congrArg (fun x => x.2.2) heq
  refine ⟨?_, ?_, ?_⟩
  · rw [htr]
    cases hm : cfg.maxGradNorm with
    | none =>
      rw [replayTrainStep_trace_none ops er cfg _ k eps s1 _ _ hm]
      simp [List.count_append, List.count_replicate, List.count_cons]
    | some c =>
      rw [replayTrainStep_trace_some ops er cfg _ k eps s1 _ _ c hm]
      simp [List.count_append, List.count_replicate, List.count_cons]
  · rw [htr]
    cases hm : cfg.maxGradNorm with
    | none =>
      rw [replayTrainStep_trace_none ops er cfg _ k eps s1 _ _ hm]
      simp [List.count_append, List.count_replicate, List.count_cons]
    | some c =>
      rw [replayTrainStep_trace_some ops er cfg _ k eps s1 _ _ c hm]
      simp [List.count_append, List.count_replicate, List.count_cons]
  · rw [htr]
    exact replayTrainStep_rollout_first ops er cfg _ k eps s1 _ _ _ (by simp)

/-- Witness for C10 at the cold-start witness batch. -/
theorem claim10_witness :
    tbC.2.2.count (Event.sampleCall cfgW.batchSize) = 1
    ∧ tbC.2.2.count Event.optimizerStep = 1
    ∧ Precedes Event.zeroGrad (fun e => e = Event.rolloutStep)
        (fun e => e = Event.optimizerStep) tbC.2.2 :=
  claim10 opsW erW cfgW 5 0 stCold tbC.1 tbC.2.1 tbC.2.2 rfl

lemma trainBatch_targetParams {σ Obs P ε : Type} {n : ℕ} (ops : TorchOps P Obs n)
    (er : EnvRoller σ Obs n ε) (cfg : DqnReinforcerSettings) (fuel : ℕ)
    (progress : ℚ) (st st1 : DqnState σ P) (scr : BatchScratch ε) (tr : List Event)
    (h : trainBatch ops er cfg fuel progress st = some (st1, scr, tr)) :
    st1.targetParams = st.targetParams := by
  obtain ⟨s1, k, eps, hrp, heq⟩ :=
    trainBatch_inv ops er cfg fuel progress st st1 scr tr h
  have := congrArg (fun x => x.1.targetParams) heq
  simpa [replayTrainStep_targetParams] using this

lemma trainBatch_tuf_independent {σ Obs P ε : Type} {n : ℕ} (ops : TorchOps P Obs n)
    (er : EnvRoller σ Obs n ε) (cfg : DqnReinforcerSettings) (fuel : ℕ) (x : ℤ) :
    ∀ (progress : ℚ) (st : DqnState σ P),
      trainBatch (ε := ε) ops er { cfg with targetUpdateFrequency := x } fuel progress st
        = trainBatch ops er cfg fuel progress st := by
  intro progress st
  obtain ⟨f1, f2, f3, f4, f5, f6, f7⟩ := cfg
  rfl

lemma runBatches_targetParams {σ Obs P ε : Type} {n : ℕ} (ops : TorchOps P Obs n)
    (er : EnvRoller σ Obs n ε) (cfg : DqnReinforcerSettings) (fuel : ℕ)
    (callbacks : List ℕ) (progressOf : ℕ → ℚ) :
    ∀ (bs : List ℕ) (st st2 : DqnState σ P) (evs : List EpochEvent),
      runBatches (ε := ε) ops er cfg fuel callbacks progressOf bs st = some (st2, evs) →
        st2.targetParams = st.targetParams := by
  intro bs
  induction bs with
  | nil =>
    intro st st2 evs h
    unfold runBatches at h
    simp only [Option.some.injEq, Prod.mk.injEq] at h
    rw [← h.1]
  | cons b bs2 ih =>
    intro st st2 evs h
    unfold runBatches at h
    cases htb : trainBatch ops er cfg fuel (progressOf b) st with
    | none =>
      rw [htb] at h
      cases h
    | some r =>
      obtain ⟨rst, rscr, rtr⟩ := r
      rw [htb] at h
      dsimp only at h
      cases hrb : runBatches ops er cfg fuel callbacks progressOf bs2 rst with
      | none =>
        rw [hrb] at h
        cases h
      | some rest =>
        obtain ⟨rest1, rest2⟩ := rest
        rw [hrb] at h
        simp only [Option.some.injEq, Prod.mk.injEq] at h
        rw [← h.1, ih rst rest1 rest2 hrb]
        exact trainBatch_targetParams ops er cfg fuel (progressOf b) st rst rscr rtr htb

lemma trainEpoch_targetParams {σ Obs P ε : Type} {n : ℕ} (ops : TorchOps P Obs n)
    (er : EnvRoller σ Obs n ε) (cfg : DqnReinforcerSettings) (fuel : ℕ)
    (callbacks : List ℕ) (batchesPerEpoch : ℕ) (progressOf : ℕ → ℚ)
    (st st2 : DqnState σ P) (evs : List EpochEvent)
    (h : trainEpoch (ε := ε) ops er cfg fuel callbacks batchesPerEpoch progressOf st
        = some (st2, evs)) :
    st2.targetParams = st.targetParams := by
  unfold trainEpoch at h
  cases hrb : runBatches (ε := ε) ops er cfg fuel callbacks progressOf
      (List.range batchesPerEpoch) st with
  | none =>
    rw [hrb] at h
    cases h
  | some r =>
    obtain ⟨r1, r2⟩ := r
    rw [hrb] at h
    simp only [Option.map_some', Option.some.injEq, Prod.mk.injEq] at h
    rw [← h.1]
    exact runBatches_targetParams ops er cfg fuel callbacks progressOf _ st r1 r2 hrb

lemma runBatches_tuf_independent {σ Obs P ε : Type} {n : ℕ} (ops : TorchOps P Obs n)
    (er : EnvRoller σ Obs n ε) (cfg : DqnReinforcerSettings) (fuel : ℕ)
    (callbacks : List ℕ) (progressOf : ℕ → ℚ) (x : ℤ) :
    ∀ (bs : List ℕ) (st : DqnState σ P),
      runBatches (ε := ε) ops er { cfg with targetUpdateFrequency := x } fuel
          callbacks progressOf bs st
        = runBatches ops er cfg fuel callbacks progressOf bs st := by
  intro bs
  induction bs with
  | nil => intro st; rfl
  | cons b bs2 ih =>
    intro st
    unfold runBatches
    simp only [trainBatch_tuf_independent ops er cfg fuel x, ih]

/-- C5: `initialize_training` makes target and train parameters equal to the
freshly reset train parameters; neither `train_batch` nor `train_epoch`
ever changes the target parameters, and both are entirely independent of
`target_update_frequency` (lines 72-75, 100-180). -/
theorem claim5 {σ Obs P ε : Type} {n : ℕ} (ops : TorchOps P Obs n)
    (er : EnvRoller σ Obs n ε) (cfg : DqnReinforcerSettings) (fuel : ℕ)
    (progress : ℚ) (st stb ste st1 st2 : DqnState σ P) (scr : BatchScratch ε)
    (tr : List Event) (callbacks : List ℕ) (batchesPerEpoch : ℕ)
    (progressOf : ℕ → ℚ) (evs : List EpochEvent) (x : ℤ)
    (hb : trainBatch ops er cfg fuel progress stb = some (st1, scr, tr))
    (he : trainEpoch ops er cfg fuel callbacks batchesPerEpoch progressOf ste
        = some (st2, evs)) :
    (initTraining ops st).targetParams = ops.resetWeights st.trainParams
    ∧ (initTraining ops st).trainParams = (initTraining ops st).targetParams
    ∧ st1.targetParams = stb.targetParams
    ∧ st2.targetParams = ste.targetParams
    ∧ trainBatch ops er { cfg with targetUpdateFrequency := x } fuel progress stb
        = trainBatch ops er cfg fuel progress stb
    ∧ trainEpoch ops er { cfg with targetUpdateFrequency := x } fuel callbacks
          batchesPerEpoch progressOf ste
        = trainEpoch ops er cfg fuel callbacks batchesPerEpoch progressOf ste := by
  refine ⟨rfl, rfl, ?_, ?_, ?_, ?_⟩
  · exact trainBatch_targetParams ops er cfg fuel progress stb st1 scr tr hb
  · exact trainEpoch_targetParams ops er cfg fuel callbacks batchesPerEpoch
      progressOf ste st2 evs he
  · exact trainBatch_tuf_independent ops er cfg fuel x progress stb
  · unfold trainEpoch
    rw [runBatches_tuf_independent ops er cfg fuel callbacks progressOf x]

/-- Witness for C5 on the cold-start batch and the one-batch epoch. -/
theorem claim5_witness :
    (initTraining opsW stCold).targetParams = opsW.resetWeights stCold.trainParams
    ∧ (initTraining opsW stCold).trainParams = (initTraining opsW stCold).targetParams
    ∧ tbC.1.targetParams = stCold.targetParams
    ∧ teW.1.targetParams = stWarm.targetParams
    ∧ trainBatch opsW erW { cfgW with targetUpdateFrequency := 7 } 5 0 stCold
        = trainBatch opsW erW cfgW 5 0 stCold
    ∧ trainEpoch opsW erW { cfgW with targetUpdateFrequency := 7 } 5 [1] 1
          (fun _ => 0) stWarm
        = trainEpoch opsW erW cfgW 5 [1] 1 (fun _ => 0) stWarm :=
  claim5 opsW erW cfgW 5 0 stCold stCold stWarm tbC.1 teW.1 tbC.2.1 tbC.2.2
    [1] 1 (fun _ => 0) teW.2 7 rfl rfl

lemma sumSq_map_mul (c : ℚ) (l : List ℚ) :
    sumSq (l.map (fun x => c * x)) = c ^ 2 * sumSq l := by
  induction l with
  | nil => simp [sumSq]
  | cons a t ih =>
    unfold sumSq at ih ⊢
    simp only [List.map_cons, List.sum_cons]
    rw [ih]
    ring

lemma clipGradNorm_fst (nrm : List ℚ → ℚ) (maxNorm : ℚ) (g : List ℚ) :
    (clipGradNorm nrm maxNorm g).1 = nrm g := by
  unfold clipGradNorm
  split <;> rfl

lemma replayTrainStep_gradNorm_some {σ Obs P ε : Type} {n : ℕ} (ops : TorchOps P Obs n)
    (er : EnvRoller σ Obs n ε) (cfg : DqnReinforcerSettings) (epsv : ℚ) (k : ℕ)
    (eps : List ε) (s1 : σ) (tp gp : P) (c : ℚ) (h : cfg.maxGradNorm = some c) :
    (replayTrainStep ops er cfg epsv k eps s1 tp gp).2.1.gradNorm
      = some (ops.l2norm (ops.backward
          (weightedLoss cfg (ops.net gp) (ops.net tp) (er.sample s1 cfg.batchSize)) tp)) := by
  unfold replayTrainStep
  rw [h]
  simp only [clipGradNorm_fst]

lemma replayTrainStep_gradNorm_none {σ Obs P ε : Type} {n : ℕ} (ops : TorchOps P Obs n)
    (er : EnvRoller σ Obs n ε) (cfg : DqnReinforcerSettings) (epsv : ℚ) (k : ℕ)
    (eps : List ε) (s1 : σ) (tp gp : P) (h : cfg.maxGradNorm = none) :
    (replayTrainStep ops er cfg epsv k eps s1 tp gp).2.1.gradNorm = none := by
  unfold replayTrainStep
  rw [h]

lemma replayTrainStep_trainParams_some {σ Obs P ε : Type} {n : ℕ} (ops : TorchOps P Obs n)
    (er : EnvRoller σ Obs n ε) (cfg : DqnReinforcerSettings) (epsv : ℚ) (k : ℕ)
    (eps : List ε) (s1 : σ) (tp gp : P) (c : ℚ) (h : cfg.maxGradNorm = some c) :
    (replayTrainStep ops er cfg epsv k eps s1 tp gp).1.trainParams
      = ops.optStep tp (clipGradNorm ops.l2norm c (ops.backward
          (weightedLoss cfg (ops.net gp) (ops.net tp) (er.sample s1 cfg.batchSize)) tp)).2 := by
  unfold replayTrainStep
  rw [h]

lemma replayTrainStep_trainParams_none {σ Obs P ε : Type} {n : ℕ} (ops : TorchOps P Obs n)
    (er : EnvRoller σ Obs n ε) (cfg : DqnReinforcerSettings) (epsv : ℚ) (k : ℕ)
    (eps : List ε) (s1 : σ) (tp gp : P) (h : cfg.maxGradNorm = none) :
    (replayTrainStep ops er cfg epsv k eps s1 tp gp).1.trainParams
      = ops.optStep tp (ops.backward
          (weightedLoss cfg (ops.net gp) (ops.net tp) (er.sample s1 cfg.batchSize)) tp) := by
  unfold replayTrainStep
  rw [h]

/-- C6: the clip model caps the post-clip squared norm at the square of the
cap and leaves the gradients unchanged when the pre-clip norm is within
the cap, returning the pre-clip norm; with `max_grad_norm` set,
`train_batch` records that pre-clip norm under `grad_norm` and the
optimizer consumes the clipped gradients, with the clip between
backpropagation and the optimizer step; with `max_grad_norm` unset, no
`grad_norm` is recorded, the raw gradients are consumed and no clip call
happens (lines 169-177). -/
theorem claim6 {σ Obs P ε : Type} {n : ℕ} (ops : TorchOps P Obs n)
    (er : EnvRoller σ Obs n ε) (cfg cfg2 : DqnReinforcerSettings) (C : ℚ)
    (epsv : ℚ) (k : ℕ) (eps : List ε) (s1 : σ) (tp gp : P)
    (hC : 0 < C) (hm : cfg.maxGradNorm = some C) (hm2 : cfg2.maxGradNorm = none) :
    (∀ (nrm : List ℚ → ℚ) (g : List ℚ), 0 ≤ nrm g → nrm g ^ 2 = sumSq g →
        sumSq (clipGradNorm nrm C g).2 ≤ C ^ 2
      ∧ (nrm g ≤ C → (clipGradNorm nrm C g).2 = g)
      ∧ (clipGradNorm nrm C g).1 = nrm g)
    ∧ (replayTrainStep ops er cfg epsv k eps s1 tp gp).2.1.gradNorm
        = some (ops.l2norm (ops.backward
            (weightedLoss cfg (ops.net gp) (ops.net tp) (er.sample s1 cfg.batchSize)) tp))
    ∧ (replayTrainStep ops er cfg epsv k eps s1 tp gp).1.trainParams
        = ops.optStep tp (clipGradNorm ops.l2norm C (ops.backward
            (weightedLoss cfg (ops.net gp) (ops.net tp) (er.sample s1 cfg.batchSize)) tp)).2
    ∧ Precedes Event.zeroGrad (fun e => e = Event.backwardCall)
        (fun e => e = Event.clipCall)
        (replayTrainStep ops er cfg epsv k eps s1 tp gp).2.2
    ∧ Precedes Event.zeroGrad (fun e => e = Event.clipCall)
        (fun e => e = Event.optimizerStep)
        (replayTrainStep ops er cfg epsv k eps s1 tp gp).2.2
    ∧ (replayTrainStep ops er cfg2 epsv k eps s1 tp gp).2.1.gradNorm = none
    ∧ (replayTrainStep ops er cfg2 epsv k eps s1 tp gp).1.trainParams
        = ops.optStep tp (ops.backward
            (weightedLoss cfg2 (ops.net gp) (ops.net tp) (er.sample s1 cfg2.batchSize)) tp)
    ∧ Event.clipCall ∉ (replayTrainStep ops er cfg2 epsv k eps s1 tp gp).2.2 := by
  refine ⟨?_, ?_, ?_, ?_, ?_, ?_, ?_, ?_⟩
  · intro nrm g h0 hsq
    unfold clipGradNorm
    by_cases hlt : C < nrm g
    · rw [if_pos hlt]
      have hne : nrm g ≠ 0 := ne_of_gt (hC.trans hlt)
      refine ⟨?_, ?_, rfl⟩
      · rw [sumSq_map_mul, ← hsq, div_pow, div_mul_cancel₀]
        exact pow_ne_zero 2 hne
      · intro hle
        exact absurd hlt (not_lt.mpr hle)
    · rw [if_neg hlt]
      refine ⟨?_, fun _ => rfl, rfl⟩
      rw [← hsq]
      exact pow_le_pow_left₀ h0 (not_lt.mp hlt) 2
  · exact replayTrainStep_gradNorm_some ops er cfg epsv k eps s1 tp gp C hm
  · exact replayTrainStep_trainParams_some ops er cfg epsv k eps s1 tp gp C hm
  · rw [replayTrainStep_trace_some ops er cfg epsv k eps s1 tp gp C hm]
    rw [show ([Event.zeroGrad, Event.sampleCall cfg.batchSize, Event.backwardCall,
        Event.rollerUpdate, Event.clipCall, Event.optimizerStep] : List Event)
      = [Event.zeroGrad, Event.sampleCall cfg.batchSize, Event.backwardCall,
          Event.rollerUpdate] ++ [Event.clipCall, Event.optimizerStep] from rfl]
    rw [← List.append_assoc]
    apply precedes_append_split
    · intro e he heq
      subst heq
      simp [List.mem_append, List.mem_replicate] at he
    · intro e he heq
      subst heq
      simp at he
  · rw [replayTrainStep_trace_some ops er cfg epsv k eps s1 tp gp C hm]
    rw [show ([Event.zeroGrad, Event.sampleCall cfg.batchSize, Event.backwardCall,
        Event.rollerUpdate, Event.clipCall, Event.optimizerStep] : List Event)
      = [Event.zeroGrad, Event.sampleCall cfg.batchSize, Event.backwardCall,
          Event.rollerUpdate, Event.clipCall] ++ [Event.optimizerStep] from rfl]
    rw [← List.append_assoc]
    apply precedes_append_split
    · intro e he heq
      subst heq
      simp [List.mem_append, List.mem_replicate] at he
    · intro e he heq
      subst heq
      simp at he
  · exact replayTrainStep_gradNorm_none ops er cfg2 epsv k eps s1 tp gp hm2
  · exact replayTrainStep_trainParams_none ops er cfg2 epsv k eps s1 tp gp hm2
  · rw [replayTrainStep_trace_none ops er cfg2 epsv k eps s1 tp gp hm2]
    simp [List.mem_append, List.mem_replicate]

/-- Witness for C6 with cap 2 on the clipping settings and the no-clip
settings. -/
theorem claim6_witness :
    (∀ (nrm : List ℚ → ℚ) (g : List ℚ), 0 ≤ nrm g → nrm g ^ 2 = sumSq g →
        sumSq (clipGradNorm nrm 2 g).2 ≤ 2 ^ 2
      ∧ (nrm g ≤ 2 → (clipGradNorm nrm 2 g).2 = g)
      ∧ (clipGradNorm nrm 2 g).1 = nrm g)
    ∧ (replayTrainStep opsW erW cfgC (cfgW.epsilonSchedule 0) 2 [] 7 4 8).2.1.gradNorm
        = some (opsW.l2norm (opsW.backward
            (weightedLoss cfgC (opsW.net 8) (opsW.net 4) (erW.sample 7 cfgC.batchSize)) 4))
    ∧ (replayTrainStep opsW erW cfgC (cfgW.epsilonSchedule 0) 2 [] 7 4 8).1.trainParams
        = opsW.optStep 4 (clipGradNorm opsW.l2norm 2 (opsW.backward
            (weightedLoss cfgC (opsW.net 8) (opsW.net 4) (erW.sample 7 cfgC.batchSize)) 4)).2
    ∧ Precedes Event.zeroGrad (fun e => e = Event.backwardCall)
        (fun e => e = Event.clipCall)
        (replayTrainStep opsW erW cfgC (cfgW.epsilonSchedule 0) 2 [] 7 4 8).2.2
    ∧ Precedes Event.zeroGrad (fun e => e = Event.clipCall)
        (fun e => e = Event.optimizerStep)
        (replayTrainStep opsW erW cfgC (cfgW.epsilonSchedule 0) 2 [] 7 4 8).2.2
    ∧ (replayTrainStep opsW erW cfgW (cfgW.epsilonSchedule 0) 2 [] 7 4 8).2.1.gradNorm = none
    ∧ (replayTrainStep opsW erW cfgW (cfgW.epsilonSchedule 0) 2 [] 7 4 8).1.trainParams
        = opsW.optStep 4 (opsW.backward
            (weightedLoss cfgW (opsW.net 8) (opsW.net 4) (erW.sample 7 cfgW.batchSize)) 4)
    ∧ Event.clipCall ∉ (replayTrainStep opsW erW cfgW (cfgW.epsilonSchedule 0) 2 [] 7 4 8).2.2 :=
  claim6 opsW erW cfgC cfgW 2 (cfgW.epsilonSchedule 0) 2 [] 7 4 8 (by norm_num) rfl rfl

lemma runBatches_cons_inv {σ Obs P ε : Type} {n : ℕ} (ops : TorchOps P Obs n)
    (er : EnvRoller σ Obs n ε) (cfg : DqnReinforcerSettings) (fuel : ℕ)
    (callbacks : List ℕ) (progressOf : ℕ → ℚ) (b : ℕ) (bs : List ℕ)
    (st st2 : DqnState σ P) (evs : List EpochEvent)
    (h : runBatches (ε := ε) ops er cfg fuel callbacks progressOf (b :: bs) st
        = some (st2, evs)) :
    ∃ st1 scr tr evs2,
      trainBatch ops er cfg fuel (progressOf b) st = some (st1, scr, tr)
        ∧ runBatches ops er cfg fuel callbacks progressOf bs st1 = some (st2, evs2)
        ∧ evs = (callbacks.map (fun c => EpochEvent.batchBegin c b))
            ++ (tr.map (EpochEvent.inBatch b)
              ++ ((callbacks.map (fun c => EpochEvent.batchEnd c b))
                ++ EpochEvent.accumulateResult b :: evs2)) := by
  unfold runBatches at h
  cases htb : trainBatch ops er cfg fuel (progressOf b) st with
  | none =>
    rw [htb] at h
    cases h
  | some r =>
    obtain ⟨rst, rscr, rtr⟩ := r
    rw [htb] at h
    dsimp only at h
    cases hrb : runBatches ops er cfg fuel callbacks progressOf bs rst with
    | none =>
      rw [hrb] at h
      cases h
    | some rest =>
      obtain ⟨rest1, rest2⟩ := rest
      rw [hrb] at h
      simp only [Option.some.injEq, Prod.mk.injEq] at h
      obtain ⟨h1, h2⟩ := h
      subst h1
      exact ⟨rst, rscr, rtr, rest2, rfl, hrb, h2.symm⟩

lemma runBatches_mem {σ Obs P ε : Type} {n : ℕ} (ops : TorchOps P Obs n)
    (er : EnvRoller σ Obs n ε) (cfg : DqnReinforcerSettings) (fuel : ℕ)
    (callbacks : List ℕ) (progressOf : ℕ → ℚ) :
    ∀ (bs : List ℕ) (st st2 : DqnState σ P) (evs : List EpochEvent),
      runBatches (ε := ε) ops er cfg fuel callbacks progressOf bs st = some (st2, evs) →
        ∀ e ∈ evs, ∃ b ∈ bs, MentionsBatch b e := by
  intro bs
  induction bs with
  | nil =>
    intro st st2 evs h
    unfold runBatches at h
    simp only [Option.some.injEq, Prod.mk.injEq] at h
    obtain ⟨-, h2⟩ := h
    subst h2
    intro e he
    simp at he
  | cons b bs2 ih =>
    intro st st2 evs h
    obtain ⟨st1, scr, tr, evs2, htb, hrb, hevs⟩ :=
      runBatches_cons_inv ops er cfg fuel callbacks progressOf b bs2 st st2 evs h
    subst hevs
    intro e he
    simp only [List.mem_append, List.mem_cons, List.mem_map] at he
    rcases he with ⟨c, -, rfl⟩ | (⟨ev, -, rfl⟩ | (⟨c, -, rfl⟩ | (rfl | he2)))
    · exact ⟨b, List.mem_cons_self b bs2, Or.inl ⟨c, rfl⟩⟩
    · exact ⟨b, List.mem_cons_self b bs2, Or.inr (Or.inl ⟨ev, rfl⟩)⟩
    · exact ⟨b, List.mem_cons_self b bs2, Or.inr (Or.inr (Or.inl ⟨c, rfl⟩))⟩
    · exact ⟨b, List.mem_cons_self b bs2, Or.inr (Or.inr (Or.inr rfl))⟩
    · obtain ⟨b2, hb2, hm⟩ := ih st1 st2 evs2 hrb e he2
      exact ⟨b2, List.mem_cons_of_mem b hb2, hm⟩

lemma mentionsBatch_batch_eq {b b2 : ℕ} {e : EpochEvent} (hm : MentionsBatch b2 e)
    (hb : MentionsBatch b e) : b = b2 := by
  rcases hm with ⟨c, rfl⟩ | ⟨ev, rfl⟩ | ⟨c, rfl⟩ | rfl <;>
    rcases hb with ⟨c2, heq⟩ | ⟨ev2, heq⟩ | ⟨c2, heq⟩ | heq <;>
      cases heq <;> rfl

lemma runBatches_not_mentions {σ Obs P ε : Type} {n : ℕ} (ops : TorchOps P Obs n)
    (er : EnvRoller σ Obs n ε) (cfg : DqnReinforcerSettings) (fuel : ℕ)
    (callbacks : List ℕ) (progressOf : ℕ → ℚ) (bs : List ℕ)
    (st st2 : DqnState σ P) (evs : List EpochEvent)
    (h : runBatches (ε := ε) ops er cfg fuel callbacks progressOf bs st = some (st2, evs))
    (b : ℕ) (hb : b ∉ bs) : ∀ e ∈ evs, ¬ MentionsBatch b e := by
  intro e he hm
  obtain ⟨b2, hb2, hm2⟩ := runBatches_mem ops er cfg fuel callbacks progressOf bs st st2 evs h e he
  rw [mentionsBatch_batch_eq hm2 hm] at hb
  exact hb hb2

lemma runBatches_begin_before_in {σ Obs P ε : Type} {n : ℕ} (ops : TorchOps P Obs n)
    (er : EnvRoller σ Obs n ε) (cfg : DqnReinforcerSettings) (fuel : ℕ)
    (callbacks : List ℕ) (progressOf : ℕ → ℚ) :
    ∀ (bs : List ℕ), bs.Nodup → ∀ (st st2 : DqnState σ P) (evs : List EpochEvent),
      runBatches (ε := ε) ops er cfg fuel callbacks progressOf bs st = some (st2, evs) →
      ∀ b, Precedes EpochEvent.freezeResults
        (fun e => ∃ c, e = EpochEvent.batchBegin c b)
        (fun e => ∃ ev, e = EpochEvent.inBatch b ev) evs := by
  intro bs
  induction bs with
  | nil =>
    intro _ st st2 evs h b
    unfold runBatches at h
    simp only [Option.some.injEq, Prod.mk.injEq] at h
    obtain ⟨-, h2⟩ := h
    subst h2
    intro i j hi hj
    simp at hi
  | cons b0 bs2 ih =>
    intro hnd st st2 evs h b
    obtain ⟨st1, scr, tr, evs2, htb, hrb, hevs⟩ :=
      runBatches_cons_inv ops er cfg fuel callbacks progressOf b0 bs2 st st2 evs h
    subst hevs
    obtain ⟨hb0, hnd2⟩ := List.nodup_cons.mp hnd
    by_cases hbb : b = b0
    · subst hbb
      apply precedes_append_split
      · intro e he hq
        obtain ⟨c, -, rfl⟩ := List.mem_map.mp he
        obtain ⟨ev, heq⟩ := hq
        exact EpochEvent.noConfusion heq
      · intro e he hp
        obtain ⟨c, rfl⟩ := hp
        simp only [List.mem_append, List.mem_cons, List.mem_map] at he
        rcases he with ⟨ev, -, heq⟩ | (⟨c2, -, heq⟩ | (heq | he2))
        · exact EpochEvent.noConfusion heq
        · exact EpochEvent.noConfusion heq
        · exact EpochEvent.noConfusion heq
        · exact runBatches_not_mentions ops er cfg fuel callbacks progressOf bs2
            st1 st2 evs2 hrb b hb0 _ he2 (Or.inl ⟨c, rfl⟩)
    · apply precedes_append_right
      · intro e he hq
        obtain ⟨c, -, rfl⟩ := List.mem_map.mp he
        obtain ⟨ev, heq⟩ := hq
        exact EpochEvent.noConfusion heq
      apply precedes_append_right
      · intro e he hq
        obtain ⟨ev, -, rfl⟩ := List.mem_map.mp he
        obtain ⟨ev2, heq⟩ := hq
        injection heq with h1 h2
        exact hbb h1.symm
      apply precedes_append_right
      · intro e he hq
        obtain ⟨c, -, rfl⟩ := List.mem_map.mp he
        obtain ⟨ev, heq⟩ := hq
        exact EpochEvent.noConfusion heq
      rw [show EpochEvent.accumulateResult b0 :: evs2
        = [EpochEvent.accumulateResult b0] ++ evs2 from rfl]
      apply precedes_append_right
      · intro e he hq
        rw [List.mem_singleton] at he
        subst he
        obtain ⟨ev, heq⟩ := hq
        exact EpochEvent.noConfusion heq
      exact ih hnd2 st1 st2 evs2 hrb b

lemma runBatches_in_before_end {σ Obs P ε : Type} {n : ℕ} (ops : TorchOps P Obs n)
    (er : EnvRoller σ Obs n ε) (cfg : DqnReinforcerSettings) (fuel : ℕ)
    (callbacks : List ℕ) (progressOf : ℕ → ℚ) :
    ∀ (bs : List ℕ), bs.Nodup → ∀ (st st2 : DqnState σ P) (evs : List EpochEvent),
      runBatches (ε := ε) ops er cfg fuel callbacks progressOf bs st = some (st2, evs) →
      ∀ b, Precedes EpochEvent.freezeResults
        (fun e => ∃ ev, e = EpochEvent.inBatch b ev)
        (fun e => ∃ c, e = EpochEvent.batchEnd c b) evs := by
  intro bs
  induction bs with
  | nil =>
    intro _ st st2 evs h b
    unfold runBatches at h
    simp only [Option.some.injEq, Prod.mk.injEq] at h
    obtain ⟨-, h2⟩ := h
    subst h2
    intro i j hi hj
    simp at hi
  | cons b0 bs2 ih =>
    intro hnd st st2 evs h b
    obtain ⟨st1, scr, tr, evs2, htb, hrb, hevs⟩ :=
      runBatches_cons_inv ops er cfg fuel callbacks progressOf b0 bs2 st st2 evs h
    subst hevs
    obtain ⟨hb0, hnd2⟩ := List.nodup_cons.mp hnd
    by_cases hbb : b = b0
    · subst hbb
      apply precedes_append_right
      · intro e he hq
        obtain ⟨c, -, rfl⟩ := List.mem_map.mp he
        obtain ⟨c2, heq⟩ := hq
        exact EpochEvent.noConfusion heq
      apply precedes_append_split
      · intro e he hq
        obtain ⟨ev, -, rfl⟩ := List.mem_map.mp he
        obtain ⟨c2, heq⟩ := hq
        exact EpochEvent.noConfusion heq
      · intro e he hp
        obtain ⟨ev, rfl⟩ := hp
        simp only [List.mem_append, List.mem_cons, List.mem_map] at he
        rcases he with ⟨c2, -, heq⟩ | (heq | he2)
        · exact EpochEvent.noConfusion heq
        · exact EpochEvent.noConfusion heq
        · exact runBatches_not_mentions ops er cfg fuel callbacks progressOf bs2
            st1 st2 evs2 hrb b hb0 _ he2 (Or.inr (Or.inl ⟨ev, rfl⟩))
    · apply precedes_append_right
      · intro e he hq
        obtain ⟨c, -, rfl⟩ := List.mem_map.mp he
        obtain ⟨c2, heq⟩ := hq
        exact EpochEvent.noConfusion heq
      apply precedes_append_right
      · intro e he hq
        obtain ⟨ev, -, rfl⟩ := List.mem_map.mp he
        obtain ⟨c2, heq⟩ := hq
        exact EpochEvent.noConfusion heq
      apply precedes_append_right
      · intro e he hq
        obtain ⟨c, -, rfl⟩ := List.mem_map.mp he
        obtain ⟨c2, heq⟩ := hq
        injection heq with h1 h2
        exact hbb h2.symm
      rw [show EpochEvent.accumulateResult b0 :: evs2
        = [EpochEvent.accumulateResult b0] ++ evs2 from rfl]
      apply precedes_append_right
      · intro e he hq
        rw [List.mem_singleton] at he
        subst he
        obtain ⟨c2, heq⟩ := hq
        exact EpochEvent.noConfusion heq
      exact ih hnd2 st1 st2 evs2 hrb b

lemma runBatches_end_before_acc {σ Obs P ε : Type} {n : ℕ} (ops : TorchOps P Obs n)
    (er : EnvRoller σ Obs n ε) (cfg : DqnReinforcerSettings) (fuel : ℕ)
    (callbacks : List ℕ) (progressOf : ℕ → ℚ) :
    ∀ (bs : List ℕ), bs.Nodup → ∀ (st st2 : DqnState σ P) (evs : List EpochEvent),
      runBatches (ε := ε) ops er cfg fuel callbacks progressOf bs st = some (st2, evs) →
      ∀ b, Precedes EpochEvent.freezeResults
        (fun e => ∃ c, e = EpochEvent.batchEnd c b)
        (fun e => e = EpochEvent.accumulateResult b) evs := by
  intro bs
  induction bs with
  | nil =>
    intro _ st st2 evs h b
    unfold runBatches at h
    simp only [Option.some.injEq, Prod.mk.injEq] at h
    obtain ⟨-, h2⟩ := h
    subst h2
    intro i j hi hj
    simp at hi
  | cons b0 bs2 ih =>
    intro hnd st st2 evs h b
    obtain ⟨st1, scr, tr, evs2, htb, hrb, hevs⟩ :=
      runBatches_cons_inv ops er cfg fuel callbacks progressOf b0 bs2 st st2 evs h
    subst hevs
    obtain ⟨hb0, hnd2⟩ := List.nodup_cons.mp hnd
    by_cases hbb : b = b0
    · subst hbb
      apply precedes_append_right
      · intro e he hq
        obtain ⟨c, -, rfl⟩ := List.mem_map.mp he
        exact EpochEvent.noConfusion hq
      apply precedes_append_right
      · intro e he hq
        obtain ⟨ev, -, rfl⟩ := List.mem_map.mp he
        exact EpochEvent.noConfusion hq
      apply precedes_append_split
      · intro e he hq
        obtain ⟨c, -, rfl⟩ := List.mem_map.mp he
        exact EpochEvent.noConfusion hq
      · intro e he hp
        obtain ⟨c, rfl⟩ := hp
        simp only [List.mem_cons] at he
        rcases he with heq | he2
        · exact EpochEvent.noConfusion heq
        · exact runBatches_not_mentions ops er cfg fuel callbacks progressOf bs2
            st1 st2 evs2 hrb b hb0 _ he2 (Or.inr (Or.inr (Or.inl ⟨c, rfl⟩)))
    · apply precedes_append_right
      · intro e he hq
        obtain ⟨c, -, rfl⟩ := List.mem_map.mp he
        exact EpochEvent.noConfusion hq
      apply precedes_append_right
      · intro e he hq
        obtain ⟨ev, -, rfl⟩ := List.mem_map.mp he
        exact EpochEvent.noConfusion hq
      apply precedes_append_right
      · intro e he hq
        obtain ⟨c, -, rfl⟩ := List.mem_map.mp he
        exact EpochEvent.noConfusion hq
      rw [show EpochEvent.accumulateResult b0 :: evs2
        = [EpochEvent.accumulateResult b0] ++ evs2 from rfl]
      apply precedes_append_right
      · intro e he hq
        rw [List.mem_singleton] at he
        subst he
        injection hq with h1
        exact hbb h1.symm
      exact ih hnd2 st1 st2 evs2 hrb b

lemma trainEpoch_inv {σ Obs P ε : Type} {n : ℕ} (ops : TorchOps P Obs n)
    (er : EnvRoller σ Obs n ε) (cfg : DqnReinforcerSettings) (fuel : ℕ)
    (callbacks : List ℕ) (batchesPerEpoch : ℕ) (progressOf : ℕ → ℚ)
    (st st2 : DqnState σ P) (evs : List EpochEvent)
    (h : trainEpoch (ε := ε) ops er cfg fuel callbacks batchesPerEpoch progressOf st
        = some (st2, evs)) :
    ∃ mid,
      runBatches ops er cfg fuel callbacks progressOf (List.range batchesPerEpoch) st
          = some (st2, mid)
        ∧ evs = (callbacks.map EpochEvent.epochBegin)
            ++ (mid ++ EpochEvent.freezeResults :: EpochEvent.freezeEpochResult
              :: callbacks.map EpochEvent.epochEnd) := by
  unfold trainEpoch at h
  cases hrb : runBatches (ε := ε) ops er cfg fuel callbacks progressOf
      (List.range batchesPerEpoch) st with
  | none =>
    rw [hrb] at h
    cases h
  | some r =>
    obtain ⟨r1, r2⟩ := r
    rw [hrb] at h
    simp only [Option.map_some', Option.some.injEq, Prod.mk.injEq] at h
    obtain ⟨h1, h2⟩ := h
    subst h1
    exact ⟨r2, rfl, h2.symm⟩

/-- C9: `train_epoch` runs hooks in fixed order — every `on_epoch_begin`
before any batch's training events; per batch, `on_batch_begin` before the
batch's `train_batch` events, which come before its `on_batch_end`, which
comes before that batch's accumulator fold; and all batch events precede
the freezing of results, which precedes every `on_epoch_end`
(lines 77-98). -/
theorem claim9 {σ Obs P ε : Type} {n : ℕ} (ops : TorchOps P Obs n)
    (er : EnvRoller σ Obs n ε) (cfg : DqnReinforcerSettings) (fuel : ℕ)
    (callbacks : List ℕ) (batchesPerEpoch : ℕ) (progressOf : ℕ → ℚ)
    (st st2 : DqnState σ P) (evs : List EpochEvent)
    (h : trainEpoch (ε := ε) ops er cfg fuel callbacks batchesPerEpoch progressOf st
        = some (st2, evs)) :
    Precedes EpochEvent.freezeResults (fun e => ∃ c, e = EpochEvent.epochBegin c)
        (fun e => ∃ b ev, e = EpochEvent.inBatch b ev) evs
    ∧ (∀ b, Precedes EpochEvent.freezeResults
        (fun e => ∃ c, e = EpochEvent.batchBegin c b)
        (fun e => ∃ ev, e = EpochEvent.inBatch b ev) evs)
    ∧ (∀ b, Precedes EpochEvent.freezeResults
        (fun e => ∃ ev, e = EpochEvent.inBatch b ev)
        (fun e => ∃ c, e = EpochEvent.batchEnd c b) evs)
    ∧ (∀ b, Precedes EpochEvent.freezeResults
        (fun e => ∃ c, e = EpochEvent.batchEnd c b)
        (fun e => e = EpochEvent.accumulateResult b) evs)
    ∧ Precedes EpochEvent.freezeResults (fun e => ∃ b, MentionsBatch b e)
        (fun e => e = EpochEvent.freezeResults) evs
    ∧ Precedes EpochEvent.freezeResults (fun e => e = EpochEvent.freezeResults)
        (fun e => ∃ c, e = EpochEvent.epochEnd c) evs := by
  obtain ⟨mid, hrb, hevs⟩ :=
    trainEpoch_inv ops er cfg fuel callbacks batchesPerEpoch progressOf st st2 evs h
  subst hevs
  have hnd := List.nodup_range batchesPerEpoch
  refine ⟨?_, ?_, ?_, ?_, ?_, ?_⟩
  · apply precedes_append_split
    · intro e he hq
      obtain ⟨c, -, rfl⟩ := List.mem_map.mp he
      obtain ⟨b, ev, heq⟩ := hq
      exact EpochEvent.noConfusion heq
    · intro e he hp
      obtain ⟨c, rfl⟩ := hp
      rw [List.mem_append] at he
      rcases he with he1 | he2
      · obtain ⟨b2, -, hm⟩ := runBatches_mem ops er cfg fuel callbacks progressOf _
          st st2 mid hrb _ he1
        rcases hm with ⟨c2, heq⟩ | ⟨ev2, heq⟩ | ⟨c2, heq⟩ | heq <;>
          exact EpochEvent.noConfusion heq
      · simp at he2
  · intro b
    apply precedes_append_right
    · intro e he hq
      obtain ⟨c, -, rfl⟩ := List.mem_map.mp he
      obtain ⟨ev, heq⟩ := hq
      exact EpochEvent.noConfusion heq
    apply precedes_append_left
    · exact runBatches_begin_before_in ops er cfg fuel callbacks progressOf _
        hnd st st2 mid hrb b
    · intro e he hp
      obtain ⟨c, rfl⟩ := hp
      simp at he
  · intro b
    apply precedes_append_right
    · intro e he hq
      obtain ⟨c, -, rfl⟩ := List.mem_map.mp he
      obtain ⟨c2, heq⟩ := hq
      exact EpochEvent.noConfusion heq
    apply precedes_append_left
    · exact runBatches_in_before_end ops er cfg fuel callbacks progressOf _
        hnd st st2 mid hrb b
    · intro e he hp
      obtain ⟨ev, rfl⟩ := hp
      simp at he
  · intro b
    apply precedes_append_right
    · intro e he hq
      obtain ⟨c, -, rfl⟩ := List.mem_map.mp he
      exact EpochEvent.noConfusion hq
    apply precedes_append_left
    · exact runBatches_end_before_acc ops er cfg fuel callbacks progressOf _
        hnd st st2 mid hrb b
    · intro e he hp
      obtain ⟨c, rfl⟩ := hp
      simp at he
  · rw [← List.append_assoc]
    apply precedes_append_split
    · intro e he hq
      subst hq
      rw [List.mem_append] at he
      rcases he with he1 | he2
      · obtain ⟨c, -, heq⟩ := List.mem_map.mp he1
        exact EpochEvent.noConfusion heq
      · obtain ⟨b2, -, hm⟩ := runBatches_mem ops er cfg fuel callbacks progressOf _
          st st2 mid hrb _ he2
        rcases hm with ⟨c2, heq⟩ | ⟨ev2, heq⟩ | ⟨c2, heq⟩ | heq <;>
          exact EpochEvent.noConfusion heq
    · intro e he hp
      obtain ⟨b, hm⟩ := hp
      rcases hm with ⟨c, rfl⟩ | ⟨ev, rfl⟩ | ⟨c, rfl⟩ | rfl <;> simp at he
  · rw [show (EpochEvent.freezeResults :: EpochEvent.freezeEpochResult
        :: callbacks.map EpochEvent.epochEnd)
      = [EpochEvent.freezeResults, EpochEvent.freezeEpochResult]
          ++ callbacks.map EpochEvent.epochEnd from rfl]
    rw [← List.append_assoc, ← List.append_assoc]
    apply precedes_append_split
    · intro e he hq
      obtain ⟨c, rfl⟩ := hq
      rw [List.mem_append] at he
      rcases he with he1 | he2
      · rw [List.mem_append] at he1
        rcases he1 with he3 | he4
        · obtain ⟨c2, -, heq⟩ := List.mem_map.mp he3
          exact EpochEvent.noConfusion heq
        · obtain ⟨b2, -, hm⟩ := runBatches_mem ops er cfg fuel callbacks progressOf _
            st st2 mid hrb _ he4
          rcases hm with ⟨c2, heq⟩ | ⟨ev2, heq⟩ | ⟨c2, heq⟩ | heq <;>
            exact EpochEvent.noConfusion heq
      · simp at he2
    · intro e he hp
      subst hp
      obtain ⟨c, -, heq⟩ := List.mem_map.mp he
      exact EpochEvent.noConfusion heq

/-- Witness for C9 at a one-callback, one-batch epoch. -/
theorem claim9_witness :
    Precedes EpochEvent.freezeResults (fun e => ∃ c, e = EpochEvent.epochBegin c)
        (fun e => ∃ b ev, e = EpochEvent.inBatch b ev) teW.2
    ∧ (∀ b, Precedes EpochEvent.freezeResults
        (fun e => ∃ c, e = EpochEvent.batchBegin c b)
        (fun e => ∃ ev, e = EpochEvent.inBatch b ev) teW.2)
    ∧ (∀ b, Precedes EpochEvent.freezeResults
        (fun e => ∃ ev, e = EpochEvent.inBatch b ev)
        (fun e => ∃ c, e = EpochEvent.batchEnd c b) teW.2)
    ∧ (∀ b, Precedes EpochEvent.freezeResults
        (fun e => ∃ c, e = EpochEvent.batchEnd c b)
        (fun e => e = EpochEvent.accumulateResult b) teW.2)
    ∧ Precedes EpochEvent.freezeResults (fun e => ∃ b, MentionsBatch b e)
        (fun e => e = EpochEvent.freezeResults) teW.2
    ∧ Precedes EpochEvent.freezeResults (fun e => e = EpochEvent.freezeResults)
        (fun e => ∃ c, e = EpochEvent.epochEnd c) teW.2 :=
  claim9 opsW erW cfgW 5 [1] 1 (fun _ => 0) stWarm teW.1 teW.2 rfl

/-- C8 counterexample: `create` performs no validation — invoked with
batch_size -1, train_frequency 0 and discount_factor 3/2 it succeeds and
stores the invalid values verbatim, so invalid settings are not rejected
at construction (lines 20-32, 204-221). -/
theorem claim8_counterexample :
    (create Unit Unit Unit 0 () () () (fun _ => 0) 0 (-1) 1 (3 / 2)
        none false).settings.batchSize = -1
    ∧ (create Unit Unit Unit 0 () () () (fun _ => 0) 0 (-1) 1 (3 / 2)
        none false).settings.trainFrequency = 0
    ∧ (create Unit Unit Unit 0 () () () (fun _ => 0) 0 (-1) 1 (3 / 2)
        none false).settings.discountFactor = 3 / 2 :=
  ⟨rfl, rfl, rfl⟩

/-- C8 amended: neither `DqnReinforcerSettings` nor `create` validates
anything — construction is total and stores every argument verbatim in the
settings and factory, whatever the values; misuse can only surface later
during training. -/
theorem claim8 (EF MF RF : Type) (seed : ℤ) (model : MF) (env : EF)
    (envRoller : RF) (epsSched : ℚ → ℚ) (tf bsz tuf : ℤ) (df : ℚ)
    (mgn : Option ℚ) (dd : Bool) :
    (create EF MF RF seed model env envRoller epsSched tf bsz tuf df mgn dd).settings
        = ⟨epsSched, tf, bsz, dd, tuf, df, mgn⟩
    ∧ (create EF MF RF seed model env envRoller epsSched tf bsz tuf df mgn dd).seed
        = seed :=
  ⟨rfl, rfl⟩

end Dqn
